import Mathlib

/-!
Shallow embedding of the `smart_ptr` library (`src/shared_ptr.hpp`,
`src/unique_ptr.hpp`).

Heap pointers are modelled as identifiers (`Nat`) and the heap is explicit:
a store of `size_t` reference-count cells, together with logs of `delete`
events on managed objects and on count cells.  A `shared_ptr` instance is the
pair of its two member fields `m_object` and `m_use_count`, each `none` when
the corresponding C++ member is `nullptr`.  A world holds every instance that
currently exists (`none` marks a destroyed instance), and each C++ special
member function of the class is translated line by line into a transition on
worlds.  Freed heap cells stay readable and writable in the store, so the
model can follow what the concrete program does when it touches memory after
`delete` (the store keeps the last written value); a second `delete` of the
same cell is simply recorded again in the log, which is how a double free
shows up as a log entry with multiplicity two.

The count cells are modelled as exact naturals.  The C++ counter is a
`size_t`; its value tracks the number of aliases, so the wrap-around at
`2 ^ 64` is out of reach for every property proved below (all invariants keep
live counters at their alias count, and all concrete traces are tiny).
-/

namespace SmartPtr

/-- Positional lookup in a list, `none` when out of range. -/
def nth {α : Type} : List α → Nat → Option α
  | [], _ => none
  | x :: _, 0 => some x
  | _ :: t, n + 1 => nth t n

/-- Positional update of a list, the identity when out of range. -/
def setN {α : Type} : List α → Nat → α → List α
  | [], _, _ => []
  | _ :: t, 0, x => x :: t
  | h :: t, n + 1, x => h :: setN t n x

theorem nth_setN_self {α : Type} :
    ∀ (l : List α) (i : Nat) (p x : α), nth l i = some p →
      nth (setN l i x) i = some x := by
  intro l
  induction l with
  | nil => intro i p x h; simp [nth] at h
  | cons a t ih =>
    intro i p x h
    cases i with
    | zero => simp [nth, setN]
    | succ n => simpa [nth, setN] using ih n p x (by simpa [nth] using h)

theorem nth_setN_ne {α : Type} :
    ∀ (l : List α) (i j : Nat) (x : α), i ≠ j →
      nth (setN l i x) j = nth l j := by
  intro l
  induction l with
  | nil => intro i j x _; cases i <;> simp [setN]
  | cons a t ih =>
    intro i j x hij
    cases i with
    | zero =>
      cases j with
      | zero => exact absurd rfl hij
      | succ m => simp [nth, setN]
    | succ n =>
      cases j with
      | zero => simp [nth, setN]
      | succ m => simpa [nth, setN] using ih n m x (by omega)

theorem length_setN {α : Type} :
    ∀ (l : List α) (i : Nat) (x : α), (setN l i x).length = l.length := by
  intro l
  induction l with
  | nil => intro i x; simp [setN]
  | cons a t ih =>
    intro i x
    cases i with
    | zero => simp [setN]
    | succ n => simp [setN, ih]

theorem nth_append_left {α : Type} :
    ∀ (l : List α) (i : Nat) (p x : α), nth l i = some p →
      nth (l ++ [x]) i = some p := by
  intro l
  induction l with
  | nil => intro i p x h; simp [nth] at h
  | cons a t ih =>
    intro i p x h
    cases i with
    | zero => simpa [nth] using h
    | succ n => simpa [nth] using ih n p x (by simpa [nth] using h)

theorem nth_append_self {α : Type} :
    ∀ (l : List α) (x : α), nth (l ++ [x]) l.length = some x := by
  intro l
  induction l with
  | nil => intro x; simp [nth]
  | cons a t ih => intro x; simpa [nth] using ih x

theorem nth_append_cases {α : Type} :
    ∀ (l : List α) (i : Nat) (p x : α), nth (l ++ [x]) i = some p →
      nth l i = some p ∨ (i = l.length ∧ p = x) := by
  intro l
  induction l with
  | nil =>
    intro i p x h
    cases i with
    | zero => right; constructor; rfl; simpa [nth] using h.symm
    | succ n => simp [nth] at h
  | cons a t ih =>
    intro i p x h
    cases i with
    | zero => left; simpa [nth] using h
    | succ n =>
      rcases ih n p x (by simpa [nth] using h) with h1 | h2
      · left; simpa [nth] using h1
      · right; constructor
        · simp [h2.1, List.length]
        · exact h2.2

theorem nth_lt_length {α : Type} :
    ∀ (l : List α) (i : Nat) (p : α), nth l i = some p → i < l.length := by
  intro l
  induction l with
  | nil => intro i p h; simp [nth] at h
  | cons a t ih =>
    intro i p h
    cases i with
    | zero => simp
    | succ n => have := ih n p (by simpa [nth] using h); simpa using this

/-! ### The `shared_ptr` data model (from `src/shared_ptr.hpp`) -/

/-- The member fields of a C++ `shared_ptr<T>` instance: `m_object` (line 171)
and `m_use_count` (line 173).  `none` stands for a null member pointer. -/
structure shared_ptr where
  m_object : Option Nat
  m_use_count : Option Nat
deriving DecidableEq

/-- Reading a `size_t` heap cell from the store of count cells.  Cells never
written read as `0` (they never occur in the verified traces). -/
def cntLookup : List (Nat × Nat) → Nat → Nat
  | [], _ => 0
  | e :: t, c => if e.1 = c then e.2 else cntLookup t c

/-- Writing a `size_t` heap cell. -/
def cntSet (s : List (Nat × Nat)) (c v : Nat) : List (Nat × Nat) := (c, v) :: s

theorem cntLookup_cntSet_self (s : List (Nat × Nat)) (c v : Nat) :
    cntLookup (cntSet s c v) c = v := by simp [cntSet, cntLookup]

theorem cntLookup_cntSet_ne (s : List (Nat × Nat)) (c v c' : Nat)
    (h : c ≠ c') : cntLookup (cntSet s c v) c' = cntLookup s c' := by
  simp [cntSet, cntLookup, h]

/-- A world of `shared_ptr` instances: the instances that currently exist
(`none` = destroyed), the heap of count cells, the logs of `delete` events on
managed objects and on count cells, and allocation bump counters. -/
structure SState where
  ptrs : List (Option shared_ptr)
  cntStore : List (Nat × Nat)
  cntFreed : List Nat
  objFreed : List Nat
  nextCnt : Nat
  nextObj : Nat
deriving DecidableEq

/-- The instance stored at slot `i`, when the slot exists and is alive. -/
def getLive (w : SState) (i : Nat) : Option shared_ptr :=
  match nth w.ptrs i with
  | some (some sp) => some sp
  | _ => none

/-- `shared_ptr::decrement_use_count` (lines 177-187): if `m_use_count` is
non-null, decrement the cell; if the decremented value is zero, `delete` the
managed object and the cell.  The member fields themselves are not changed. -/
def decrement_use_count (sp : shared_ptr) (w : SState) : SState :=
  match sp.m_use_count with
  | none => w
  | some c =>
      let v := cntLookup w.cntStore c - 1
      if v = 0 then
        { w with
          cntStore := cntSet w.cntStore c v
          objFreed :=
            match sp.m_object with
            | some o => o :: w.objFreed
            | none => w.objFreed
          cntFreed := c :: w.cntFreed }
      else { w with cntStore := cntSet w.cntStore c v }

/-- `shared_ptr::increment_use_count` (lines 189-196): if `m_use_count` is
non-null, increment the cell. -/
def increment_use_count (sp : shared_ptr) (w : SState) : SState :=
  match sp.m_use_count with
  | none => w
  | some c => { w with cntStore := cntSet w.cntStore c (cntLookup w.cntStore c + 1) }

/-- `shared_ptr::use_count` (lines 141-152): the value of the count cell when
`m_use_count` is non-null, otherwise `0`. -/
def shared_ptr.use_count (sp : shared_ptr) (mem : List (Nat × Nat)) : Nat :=
  match sp.m_use_count with
  | some c => cntLookup mem c
  | none => 0

/-- `shared_ptr::unique` (lines 155-166): whether the count cell reads `1`,
`false` when `m_use_count` is null. -/
def shared_ptr.unique (sp : shared_ptr) (mem : List (Nat × Nat)) : Bool :=
  match sp.m_use_count with
  | some c => cntLookup mem c == 1
  | none => false

/-- `shared_ptr::operator bool` (lines 133-136): whether `m_object` is
non-null. -/
def shared_ptr.boolConv (sp : shared_ptr) : Bool :=
  match sp.m_object with
  | some _ => true
  | none => false

/-- The operations a program can perform on a world of `shared_ptr`
instances.  Construction from a raw pointer is split into construction from a
fresh allocation (`constructFresh`, the `make_shared` pattern: the raw pointer
handed over is a new, unowned object) and construction from a null raw
pointer (`constructNull`); handing the same raw object to two independent
owners is undefined behaviour by the library contract and has no operation.
Indices name the instance slot operated on; an operation on a dead or missing
slot leaves the world unchanged (such a call cannot be written in C++). -/
inductive SOp where
  | construct
  | constructFresh
  | constructNull
  | copyConstruct (i : Nat)
  | moveConstruct (i : Nat)
  | copyAssign (i j : Nat)
  | moveAssign (i j : Nat)
  | reset (i : Nat)
  | resetFresh (i : Nat)
  | destroy (i : Nat)
deriving DecidableEq

/-- One step of the world: each case is the line-by-line translation of the
corresponding member of `shared_ptr` (constructor lines 14-43, assignment
lines 77-110, reset lines 52-71, destructor lines 44-48).  In `copyAssign i j`
slot `i` is `*this` and slot `j` is `other`; the fields of `other` are read
after `decrement_use_count`, which never modifies fields, so aliasing of
`this` and `other` is represented exactly. -/
def step (w : SState) : SOp → SState
  | .construct => { w with ptrs := w.ptrs ++ [some ⟨none, none⟩] }
  | .constructFresh =>
      { w with
        ptrs := w.ptrs ++ [some ⟨some w.nextObj, some w.nextCnt⟩]
        cntStore := cntSet w.cntStore w.nextCnt 1
        nextCnt := w.nextCnt + 1
        nextObj := w.nextObj + 1 }
  | .constructNull =>
      { w with
        ptrs := w.ptrs ++ [some ⟨none, some w.nextCnt⟩]
        cntStore := cntSet w.cntStore w.nextCnt 1
        nextCnt := w.nextCnt + 1 }
  | .copyConstruct i =>
      match getLive w i with
      | some sp => increment_use_count sp { w with ptrs := w.ptrs ++ [some sp] }
      | none => w
  | .moveConstruct i =>
      match getLive w i with
      | some sp => { w with ptrs := (setN w.ptrs i (some ⟨none, none⟩)) ++ [some sp] }
      | none => w
  | .copyAssign i j =>
      match getLive w i, getLive w j with
      | some spi, some spj =>
          let w1 := decrement_use_count spi w
          increment_use_count spj { w1 with ptrs := setN w1.ptrs i (some spj) }
      | _, _ => w
  | .moveAssign i j =>
      match getLive w i, getLive w j with
      | some spi, some spj =>
          let w1 := decrement_use_count spi w
          { w1 with ptrs := setN (setN w1.ptrs i (some spj)) j (some ⟨none, none⟩) }
      | _, _ => w
  | .reset i =>
      match getLive w i with
      | some sp =>
          let w1 := decrement_use_count sp w
          { w1 with ptrs := setN w1.ptrs i (some ⟨none, none⟩) }
      | none => w
  | .resetFresh i =>
      match getLive w i with
      | some sp =>
          let w1 := decrement_use_count sp w
          { w1 with
            ptrs := setN w1.ptrs i (some ⟨some w1.nextObj, some w1.nextCnt⟩)
            cntStore := cntSet w1.cntStore w1.nextCnt 1
            nextCnt := w1.nextCnt + 1
            nextObj := w1.nextObj + 1 }
      | none => w
  | .destroy i =>
      match getLive w i with
      | some sp =>
          let w1 := decrement_use_count sp w
          { w1 with ptrs := setN w1.ptrs i none }
      | none => w

/-- The world with no instances and an empty heap. -/
def init : SState := ⟨[], [], [], [], 0, 0⟩

/-- Running a trace of operations from the empty world. -/
def run (t : List SOp) : SState := t.foldl step init

/-- An operation is clean when it is not a self-assignment
(`x = x` or `x = move(x)` in C++). -/
def cleanOp : SOp → Bool
  | .copyAssign i j => i != j
  | .moveAssign i j => i != j
  | _ => true

/-- A trace is clean when it contains no self-assignment. -/
@[reducible]
def Clean (t : List SOp) : Prop := ∀ op ∈ t, cleanOp op = true

/-- Whether an instance slot references count cell `c`. -/
def refsC (p : Option shared_ptr) (c : Nat) : Bool :=
  match p with
  | some sp => sp.m_use_count == some c
  | none => false

/-- The number of live instances referencing count cell `c`: the number of
aliases of the object unit that `c` counts. -/
def countRefs : List (Option shared_ptr) → Nat → Nat
  | [], _ => 0
  | p :: t, c => (if refsC p c then 1 else 0) + countRefs t c

/-- `useCount()` observed at slot `i` of a world (`0` for a dead slot). -/
def useCountAt (w : SState) (i : Nat) : Nat :=
  match getLive w i with
  | some sp => sp.use_count w.cntStore
  | none => 0

/-- `isUnique()` observed at slot `i` of a world. -/
def uniqueAt (w : SState) (i : Nat) : Bool :=
  match getLive w i with
  | some sp => sp.unique w.cntStore
  | none => false

/-- Boolean conversion observed at slot `i` of a world. -/
def boolAt (w : SState) (i : Nat) : Bool :=
  match getLive w i with
  | some sp => sp.boolConv
  | none => false

/-! ### The `unique_ptr` data model (from `src/unique_ptr.hpp`) -/

/-- The single member field of a C++ `unique_ptr<T>` instance: `m_object`
(line 102), `none` when the member pointer is null.  Copy construction and
copy assignment are deleted in the source (lines 30 and 71), so no copy
operation exists in the model. -/
structure unique_ptr where
  m_object : Option Nat
deriving DecidableEq

/-- A world of `unique_ptr` instances: the instances that currently exist,
the log of `delete` events on managed objects, and an allocation counter. -/
structure UState where
  ptrs : List (Option unique_ptr)
  objFreed : List Nat
  nextObj : Nat
deriving DecidableEq

/-- The instance stored at slot `i` of a `unique_ptr` world. -/
def ugetLive (w : UState) (i : Nat) : Option unique_ptr :=
  match nth w.ptrs i with
  | some (some up) => some up
  | _ => none

/-- A `delete` of a raw object pointer (`delete nullptr` is a no-op). -/
def udelete (p : Option Nat) (w : UState) : UState :=
  match p with
  | some o => { w with objFreed := o :: w.objFreed }
  | none => w

/-- `unique_ptr::operator bool` (lines 94-97). -/
def unique_ptr.boolConv (up : unique_ptr) : Bool :=
  match up.m_object with
  | some _ => true
  | none => false

/-- The operations on a world of `unique_ptr` instances; as for `SOp`,
construction from a raw pointer means construction from a fresh allocation
(the `make_unique` pattern). -/
inductive UOp where
  | construct
  | constructFresh
  | moveConstruct (i : Nat)
  | moveAssign (i j : Nat)
  | reset (i : Nat)
  | resetFresh (i : Nat)
  | destroy (i : Nat)
deriving DecidableEq

/-- One step of a `unique_ptr` world, translated line by line from the
source (constructors lines 14-29, move assignment lines 58-70, reset lines
39-52, destructor lines 31-35).  In `moveAssign i j` slot `i` is `*this` and
slot `j` is `other`. -/
def ustep (w : UState) : UOp → UState
  | .construct => { w with ptrs := w.ptrs ++ [some ⟨none⟩] }
  | .constructFresh =>
      { w with ptrs := w.ptrs ++ [some ⟨some w.nextObj⟩], nextObj := w.nextObj + 1 }
  | .moveConstruct i =>
      match ugetLive w i with
      | some up => { w with ptrs := (setN w.ptrs i (some ⟨none⟩)) ++ [some up] }
      | none => w
  | .moveAssign i j =>
      match ugetLive w i, ugetLive w j with
      | some upi, some upj =>
          let w1 := udelete upi.m_object w
          { w1 with ptrs := setN (setN w1.ptrs i (some upj)) j (some ⟨none⟩) }
      | _, _ => w
  | .reset i =>
      match ugetLive w i with
      | some up =>
          let w1 := udelete up.m_object w
          { w1 with ptrs := setN w1.ptrs i (some ⟨none⟩) }
      | none => w
  | .resetFresh i =>
      match ugetLive w i with
      | some up =>
          let w1 := udelete up.m_object w
          { w1 with ptrs := setN w1.ptrs i (some ⟨some w1.nextObj⟩), nextObj := w1.nextObj + 1 }
      | none => w
  | .destroy i =>
      match ugetLive w i with
      | some up =>
          let w1 := udelete up.m_object w
          { w1 with ptrs := setN w1.ptrs i none }
      | none => w

/-- The empty `unique_ptr` world. -/
def uinit : UState := ⟨[], [], 0⟩

/-- Running a trace of `unique_ptr` operations from the empty world. -/
def urun (t : List UOp) : UState := t.foldl ustep uinit

/-- Boolean conversion observed at slot `i` of a `unique_ptr` world. -/
def uboolAt (w : UState) (i : Nat) : Bool :=
  match ugetLive w i with
  | some up => up.boolConv
  | none => false

/-! ### Invariants -/

/-- Structural well-formedness of a `shared_ptr` world.  These facts hold in
every reachable world, clean or not: every live instance with a non-null
object has a non-null count cell, all referenced identifiers were allocated,
and live instances holding the same object share the identical count cell. -/
structure BInv (w : SState) : Prop where
  objCnt : ∀ i sp, nth w.ptrs i = some (some sp) →
      sp.m_object ≠ none → sp.m_use_count ≠ none
  objLt : ∀ i sp o, nth w.ptrs i = some (some sp) →
      sp.m_object = some o → o < w.nextObj
  cntLt : ∀ i sp c, nth w.ptrs i = some (some sp) →
      sp.m_use_count = some c → c < w.nextCnt
  share : ∀ i j sp sp' o, nth w.ptrs i = some (some sp) →
      nth w.ptrs j = some (some sp') →
      sp.m_object = some o → sp'.m_object = some o →
      sp.m_use_count = sp'.m_use_count

/-- The reference-counting invariant of a `shared_ptr` world, maintained by
every clean trace (no self-assignment): live instances never reference freed
cells or freed objects, every unfreed count cell reads exactly the number of
live instances referencing it, and no cell or object is ever freed twice. -/
structure Inv (w : SState) : Prop where
  base : BInv w
  liveCntNotFreed : ∀ i sp c, nth w.ptrs i = some (some sp) →
      sp.m_use_count = some c → c ∉ w.cntFreed
  liveObjNotFreed : ∀ i sp o, nth w.ptrs i = some (some sp) →
      sp.m_object = some o → o ∉ w.objFreed
  valEq : ∀ c, c ∉ w.cntFreed → cntLookup w.cntStore c = countRefs w.ptrs c
  cntFreedLt : ∀ c, c ∈ w.cntFreed → c < w.nextCnt
  objFreedLt : ∀ o, o ∈ w.objFreed → o < w.nextObj
  cntFreedOnce : ∀ c, w.cntFreed.count c ≤ 1
  objFreedOnce : ∀ o, w.objFreed.count o ≤ 1

/-! ### Counting lemmas for `countRefs` -/

theorem countRefs_append (l : List (Option shared_ptr)) (x : Option shared_ptr)
    (c : Nat) :
    countRefs (l ++ [x]) c = countRefs l c + (if refsC x c then 1 else 0) := by
  induction l with
  | nil => simp [countRefs]
  | cons p t ih => simp [countRefs, ih]; omega

theorem countRefs_setN :
    ∀ (l : List (Option shared_ptr)) (i : Nat) (p x : Option shared_ptr) (c : Nat),
      nth l i = some p →
      countRefs (setN l i x) c + (if refsC p c then 1 else 0) =
        countRefs l c + (if refsC x c then 1 else 0) := by
  intro l
  induction l with
  | nil => intro i p x c h; simp [nth] at h
  | cons a t ih =>
    intro i p x c h
    cases i with
    | zero =>
      have ha : a = p := by simpa [nth] using h
      subst ha
      simp [setN, countRefs]
      omega
    | succ n =>
      have := ih n p x c (by simpa [nth] using h)
      simp [setN, countRefs]
      omega

theorem countRefs_pos :
    ∀ (l : List (Option shared_ptr)) (i : Nat) (sp : shared_ptr) (c : Nat),
      nth l i = some (some sp) → sp.m_use_count = some c →
      1 ≤ countRefs l c := by
  intro l
  induction l with
  | nil => intro i sp c h _; simp [nth] at h
  | cons a t ih =>
    intro i sp c h hc
    cases i with
    | zero =>
      have ha : a = some sp := by simpa [nth] using h
      subst ha
      simp [countRefs, refsC, hc]
    | succ n =>
      have := ih n sp c (by simpa [nth] using h) hc
      simp [countRefs]
      omega

theorem countRefs_two :
    ∀ (l : List (Option shared_ptr)) (i j : Nat) (sp sp' : shared_ptr) (c : Nat),
      i ≠ j → nth l i = some (some sp) → nth l j = some (some sp') →
      sp.m_use_count = some c → sp'.m_use_count = some c →
      2 ≤ countRefs l c := by
  intro l
  induction l with
  | nil => intro i j sp sp' c _ h _ _ _; simp [nth] at h
  | cons a t ih =>
    intro i j sp sp' c hij hi hj hc hc'
    cases i with
    | zero =>
      cases j with
      | zero => exact absurd rfl hij
      | succ m =>
        have ha : a = some sp := by simpa [nth] using hi
        subst ha
        have := countRefs_pos t m sp' c (by simpa [nth] using hj) hc'
        simp [countRefs, refsC, hc]
        omega
    | succ n =>
      cases j with
      | zero =>
        have ha : a = some sp' := by simpa [nth] using hj
        subst ha
        have := countRefs_pos t n sp c (by simpa [nth] using hi) hc
        simp [countRefs, refsC, hc']
        omega
      | succ m =>
        have := ih n m sp sp' c (by omega) (by simpa [nth] using hi)
          (by simpa [nth] using hj) hc hc'
        simp [countRefs]
        omega

/-! ### Projection helpers for the transition functions -/

theorem getLive_eq {w : SState} {i : Nat} {sp : shared_ptr} :
    getLive w i = some sp ↔ nth w.ptrs i = some (some sp) := by
  rcases h : nth w.ptrs i with _ | p
  · simp [getLive, h]
  · rcases p with _ | q <;> simp [getLive, h]

theorem ugetLive_eq {w : UState} {i : Nat} {up : unique_ptr} :
    ugetLive w i = some up ↔ nth w.ptrs i = some (some up) := by
  rcases h : nth w.ptrs i with _ | p
  · simp [ugetLive, h]
  · rcases p with _ | q <;> simp [ugetLive, h]

theorem decrement_ptrs (sp : shared_ptr) (w : SState) :
    (decrement_use_count sp w).ptrs = w.ptrs := by
  cases h : sp.m_use_count <;> simp [decrement_use_count, h, apply_ite]

theorem decrement_nextCnt (sp : shared_ptr) (w : SState) :
    (decrement_use_count sp w).nextCnt = w.nextCnt := by
  cases h : sp.m_use_count <;> simp [decrement_use_count, h, apply_ite]

theorem decrement_nextObj (sp : shared_ptr) (w : SState) :
    (decrement_use_count sp w).nextObj = w.nextObj := by
  cases h : sp.m_use_count <;> simp [decrement_use_count, h, apply_ite]

theorem decrement_cntStore (sp : shared_ptr) (w : SState) :
    (decrement_use_count sp w).cntStore =
      match sp.m_use_count with
      | none => w.cntStore
      | some c => cntSet w.cntStore c (cntLookup w.cntStore c - 1) := by
  cases h : sp.m_use_count <;> simp [decrement_use_count, h, apply_ite]

theorem increment_ptrs (sp : shared_ptr) (w : SState) :
    (increment_use_count sp w).ptrs = w.ptrs := by
  cases h : sp.m_use_count <;> simp [increment_use_count, h]

theorem increment_cntFreed (sp : shared_ptr) (w : SState) :
    (increment_use_count sp w).cntFreed = w.cntFreed := by
  cases h : sp.m_use_count <;> simp [increment_use_count, h]

theorem increment_objFreed (sp : shared_ptr) (w : SState) :
    (increment_use_count sp w).objFreed = w.objFreed := by
  cases h : sp.m_use_count <;> simp [increment_use_count, h]

theorem increment_nextCnt (sp : shared_ptr) (w : SState) :
    (increment_use_count sp w).nextCnt = w.nextCnt := by
  cases h : sp.m_use_count <;> simp [increment_use_count, h]

theorem increment_nextObj (sp : shared_ptr) (w : SState) :
    (increment_use_count sp w).nextObj = w.nextObj := by
  cases h : sp.m_use_count <;> simp [increment_use_count, h]

theorem increment_cntStore (sp : shared_ptr) (w : SState) :
    (increment_use_count sp w).cntStore =
      match sp.m_use_count with
      | none => w.cntStore
      | some c => cntSet w.cntStore c (cntLookup w.cntStore c + 1) := by
  cases h : sp.m_use_count <;> simp [increment_use_count, h]

theorem udelete_ptrs (p : Option Nat) (w : UState) : (udelete p w).ptrs = w.ptrs := by
  cases p <;> simp [udelete]

theorem udelete_nextObj (p : Option Nat) (w : UState) :
    (udelete p w).nextObj = w.nextObj := by
  cases p <;> simp [udelete]

theorem udelete_objFreed (p : Option Nat) (w : UState) :
    (udelete p w).objFreed =
      match p with
      | some o => o :: w.objFreed
      | none => w.objFreed := by
  cases p <;> simp [udelete]

theorem decrement_cntFreed (sp : shared_ptr) (w : SState) :
    (decrement_use_count sp w).cntFreed =
      match sp.m_use_count with
      | none => w.cntFreed
      | some c =>
          if cntLookup w.cntStore c - 1 = 0 then c :: w.cntFreed else w.cntFreed := by
  cases h : sp.m_use_count <;> simp [decrement_use_count, h, apply_ite]

theorem decrement_objFreed (sp : shared_ptr) (w : SState) :
    (decrement_use_count sp w).objFreed =
      match sp.m_use_count with
      | none => w.objFreed
      | some c =>
          if cntLookup w.cntStore c - 1 = 0 then
            match sp.m_object with
            | some o => o :: w.objFreed
            | none => w.objFreed
          else w.objFreed := by
  cases h : sp.m_use_count with
  | none => simp [decrement_use_count, h]
  | some c => cases ho : sp.m_object <;> simp [decrement_use_count, h, ho, apply_ite]

theorem copyConstruct_ptrs (w : SState) (i : Nat) (sp : shared_ptr)
    (h : getLive w i = some sp) :
    (step w (SOp.copyConstruct i)).ptrs = w.ptrs ++ [some sp] := by
  simp [step, h, increment_ptrs]

theorem copyConstruct_cntStore (w : SState) (i : Nat) (sp : shared_ptr)
    (h : getLive w i = some sp) :
    (step w (SOp.copyConstruct i)).cntStore =
      match sp.m_use_count with
      | none => w.cntStore
      | some c => cntSet w.cntStore c (cntLookup w.cntStore c + 1) := by
  simp [step, h, increment_cntStore]

theorem copyConstruct_cntFreed (w : SState) (i : Nat) (sp : shared_ptr)
    (h : getLive w i = some sp) :
    (step w (SOp.copyConstruct i)).cntFreed = w.cntFreed := by
  simp [step, h, increment_cntFreed]

theorem copyConstruct_objFreed (w : SState) (i : Nat) (sp : shared_ptr)
    (h : getLive w i = some sp) :
    (step w (SOp.copyConstruct i)).objFreed = w.objFreed := by
  simp [step, h, increment_objFreed]

theorem copyConstruct_nextCnt (w : SState) (i : Nat) (sp : shared_ptr)
    (h : getLive w i = some sp) :
    (step w (SOp.copyConstruct i)).nextCnt = w.nextCnt := by
  simp [step, h, increment_nextCnt]

theorem copyConstruct_nextObj (w : SState) (i : Nat) (sp : shared_ptr)
    (h : getLive w i = some sp) :
    (step w (SOp.copyConstruct i)).nextObj = w.nextObj := by
  simp [step, h, increment_nextObj]

theorem moveConstruct_state (w : SState) (i : Nat) (sp : shared_ptr)
    (h : getLive w i = some sp) :
    step w (SOp.moveConstruct i) =
      { w with ptrs := setN w.ptrs i (some ⟨none, none⟩) ++ [some sp] } := by
  simp [step, h]

theorem copyAssign_ptrs (w : SState) (i j : Nat) (spi spj : shared_ptr)
    (hi : getLive w i = some spi) (hj : getLive w j = some spj) :
    (step w (SOp.copyAssign i j)).ptrs = setN w.ptrs i (some spj) := by
  simp [step, hi, hj, increment_ptrs, decrement_ptrs]

theorem copyAssign_cntStore (w : SState) (i j : Nat) (spi spj : shared_ptr)
    (hi : getLive w i = some spi) (hj : getLive w j = some spj) :
    (step w (SOp.copyAssign i j)).cntStore =
      match spj.m_use_count with
      | none => (decrement_use_count spi w).cntStore
      | some c =>
          cntSet (decrement_use_count spi w).cntStore c
            (cntLookup (decrement_use_count spi w).cntStore c + 1) := by
  simp [step, hi, hj, increment_cntStore]

theorem copyAssign_cntFreed (w : SState) (i j : Nat) (spi spj : shared_ptr)
    (hi : getLive w i = some spi) (hj : getLive w j = some spj) :
    (step w (SOp.copyAssign i j)).cntFreed = (decrement_use_count spi w).cntFreed := by
  simp [step, hi, hj, increment_cntFreed]

theorem copyAssign_objFreed (w : SState) (i j : Nat) (spi spj : shared_ptr)
    (hi : getLive w i = some spi) (hj : getLive w j = some spj) :
    (step w (SOp.copyAssign i j)).objFreed = (decrement_use_count spi w).objFreed := by
  simp [step, hi, hj, increment_objFreed]

theorem copyAssign_nextCnt (w : SState) (i j : Nat) (spi spj : shared_ptr)
    (hi : getLive w i = some spi) (hj : getLive w j = some spj) :
    (step w (SOp.copyAssign i j)).nextCnt = w.nextCnt := by
  simp [step, hi, hj, increment_nextCnt, decrement_nextCnt]

theorem copyAssign_nextObj (w : SState) (i j : Nat) (spi spj : shared_ptr)
    (hi : getLive w i = some spi) (hj : getLive w j = some spj) :
    (step w (SOp.copyAssign i j)).nextObj = w.nextObj := by
  simp [step, hi, hj, increment_nextObj, decrement_nextObj]

theorem moveAssign_ptrs (w : SState) (i j : Nat) (spi spj : shared_ptr)
    (hi : getLive w i = some spi) (hj : getLive w j = some spj) :
    (step w (SOp.moveAssign i j)).ptrs =
      setN (setN w.ptrs i (some spj)) j (some ⟨none, none⟩) := by
  simp [step, hi, hj, decrement_ptrs]

theorem moveAssign_cntStore (w : SState) (i j : Nat) (spi spj : shared_ptr)
    (hi : getLive w i = some spi) (hj : getLive w j = some spj) :
    (step w (SOp.moveAssign i j)).cntStore = (decrement_use_count spi w).cntStore := by
  simp [step, hi, hj]

theorem moveAssign_cntFreed (w : SState) (i j : Nat) (spi spj : shared_ptr)
    (hi : getLive w i = some spi) (hj : getLive w j = some spj) :
    (step w (SOp.moveAssign i j)).cntFreed = (decrement_use_count spi w).cntFreed := by
  simp [step, hi, hj]

theorem moveAssign_objFreed (w : SState) (i j : Nat) (spi spj : shared_ptr)
    (hi : getLive w i = some spi) (hj : getLive w j = some spj) :
    (step w (SOp.moveAssign i j)).objFreed = (decrement_use_count spi w).objFreed := by
  simp [step, hi, hj]

theorem moveAssign_nextCnt (w : SState) (i j : Nat) (spi spj : shared_ptr)
    (hi : getLive w i = some spi) (hj : getLive w j = some spj) :
    (step w (SOp.moveAssign i j)).nextCnt = w.nextCnt := by
  simp [step, hi, hj, decrement_nextCnt]

theorem moveAssign_nextObj (w : SState) (i j : Nat) (spi spj : shared_ptr)
    (hi : getLive w i = some spi) (hj : getLive w j = some spj) :
    (step w (SOp.moveAssign i j)).nextObj = w.nextObj := by
  simp [step, hi, hj, decrement_nextObj]

theorem reset_ptrs (w : SState) (i : Nat) (sp : shared_ptr)
    (h : getLive w i = some sp) :
    (step w (SOp.reset i)).ptrs = setN w.ptrs i (some ⟨none, none⟩) := by
  simp [step, h, decrement_ptrs]

theorem reset_cntStore (w : SState) (i : Nat) (sp : shared_ptr)
    (h : getLive w i = some sp) :
    (step w (SOp.reset i)).cntStore = (decrement_use_count sp w).cntStore := by
  simp [step, h]

theorem reset_cntFreed (w : SState) (i : Nat) (sp : shared_ptr)
    (h : getLive w i = some sp) :
    (step w (SOp.reset i)).cntFreed = (decrement_use_count sp w).cntFreed := by
  simp [step, h]

theorem reset_objFreed (w : SState) (i : Nat) (sp : shared_ptr)
    (h : getLive w i = some sp) :
    (step w (SOp.reset i)).objFreed = (decrement_use_count sp w).objFreed := by
  simp [step, h]

theorem reset_nextCnt (w : SState) (i : Nat) (sp : shared_ptr)
    (h : getLive w i = some sp) :
    (step w (SOp.reset i)).nextCnt = w.nextCnt := by
  simp [step, h, decrement_nextCnt]

theorem reset_nextObj (w : SState) (i : Nat) (sp : shared_ptr)
    (h : getLive w i = some sp) :
    (step w (SOp.reset i)).nextObj = w.nextObj := by
  simp [step, h, decrement_nextObj]

theorem resetFresh_ptrs (w : SState) (i : Nat) (sp : shared_ptr)
    (h : getLive w i = some sp) :
    (step w (SOp.resetFresh i)).ptrs =
      setN w.ptrs i (some ⟨some w.nextObj, some w.nextCnt⟩) := by
  simp [step, h, decrement_ptrs, decrement_nextObj, decrement_nextCnt]

theorem resetFresh_cntStore (w : SState) (i : Nat) (sp : shared_ptr)
    (h : getLive w i = some sp) :
    (step w (SOp.resetFresh i)).cntStore =
      cntSet (decrement_use_count sp w).cntStore w.nextCnt 1 := by
  simp [step, h, decrement_nextCnt]

theorem resetFresh_cntFreed (w : SState) (i : Nat) (sp : shared_ptr)
    (h : getLive w i = some sp) :
    (step w (SOp.resetFresh i)).cntFreed = (decrement_use_count sp w).cntFreed := by
  simp [step, h]

theorem resetFresh_objFreed (w : SState) (i : Nat) (sp : shared_ptr)
    (h : getLive w i = some sp) :
    (step w (SOp.resetFresh i)).objFreed = (decrement_use_count sp w).objFreed := by
  simp [step, h]

theorem resetFresh_nextCnt (w : SState) (i : Nat) (sp : shared_ptr)
    (h : getLive w i = some sp) :
    (step w (SOp.resetFresh i)).nextCnt = w.nextCnt + 1 := by
  simp [step, h, decrement_nextCnt]

theorem resetFresh_nextObj (w : SState) (i : Nat) (sp : shared_ptr)
    (h : getLive w i = some sp) :
    (step w (SOp.resetFresh i)).nextObj = w.nextObj + 1 := by
  simp [step, h, decrement_nextObj]

theorem destroy_ptrs (w : SState) (i : Nat) (sp : shared_ptr)
    (h : getLive w i = some sp) :
    (step w (SOp.destroy i)).ptrs = setN w.ptrs i none := by
  simp [step, h, decrement_ptrs]

theorem destroy_cntStore (w : SState) (i : Nat) (sp : shared_ptr)
    (h : getLive w i = some sp) :
    (step w (SOp.destroy i)).cntStore = (decrement_use_count sp w).cntStore := by
  simp [step, h]

theorem destroy_cntFreed (w : SState) (i : Nat) (sp : shared_ptr)
    (h : getLive w i = some sp) :
    (step w (SOp.destroy i)).cntFreed = (decrement_use_count sp w).cntFreed := by
  simp [step, h]

theorem destroy_objFreed (w : SState) (i : Nat) (sp : shared_ptr)
    (h : getLive w i = some sp) :
    (step w (SOp.destroy i)).objFreed = (decrement_use_count sp w).objFreed := by
  simp [step, h]

theorem destroy_nextCnt (w : SState) (i : Nat) (sp : shared_ptr)
    (h : getLive w i = some sp) :
    (step w (SOp.destroy i)).nextCnt = w.nextCnt := by
  simp [step, h, decrement_nextCnt]

theorem destroy_nextObj (w : SState) (i : Nat) (sp : shared_ptr)
    (h : getLive w i = some sp) :
    (step w (SOp.destroy i)).nextObj = w.nextObj := by
  simp [step, h, decrement_nextObj]

theorem umoveAssign_ptrs (w : UState) (i j : Nat) (upi upj : unique_ptr)
    (hi : ugetLive w i = some upi) (hj : ugetLive w j = some upj) :
    (ustep w (UOp.moveAssign i j)).ptrs =
      setN (setN w.ptrs i (some upj)) j (some ⟨none⟩) := by
  simp [ustep, hi, hj, udelete_ptrs]

theorem countRefs_zero :
    ∀ (l : List (Option shared_ptr)) (c : Nat),
      (∀ i p, nth l i = some p → refsC p c = false) → countRefs l c = 0 := by
  intro l
  induction l with
  | nil => intro c _; simp [countRefs]
  | cons a t ih =>
    intro c h
    have h0 : refsC a c = false := h 0 a (by simp [nth])
    have ht : countRefs t c = 0 :=
      ih c (fun i p hp => h (i + 1) p (by simpa [nth] using hp))
    simp [countRefs, h0, ht]

/-! ### Structural invariant: preserved by every operation -/

theorem nth_setN_cases {α : Type} :
    ∀ (l : List α) (i j : Nat) (x y : α),
      nth (setN l i x) j = some y → nth l j = some y ∨ y = x := by
  intro l
  induction l with
  | nil => intro i j x y h; cases i <;> simp [setN, nth] at h
  | cons a t ih =>
    intro i j x y h
    cases i with
    | zero =>
      cases j with
      | zero => right; symm; simpa [setN, nth] using h
      | succ m => left; simpa [setN, nth] using h
    | succ n =>
      cases j with
      | zero => left; simpa [setN, nth] using h
      | succ m =>
        rcases ih n m x y (by simpa [setN, nth] using h) with h1 | h2
        · left; simpa [nth] using h1
        · right; exact h2

theorem BInv_of_subset (w w' : SState) (hb : BInv w)
    (hsub : ∀ i sp, nth w'.ptrs i = some (some sp) →
        (∃ k, nth w.ptrs k = some (some sp)) ∨ sp = ⟨none, none⟩)
    (ho : w.nextObj ≤ w'.nextObj) (hc : w.nextCnt ≤ w'.nextCnt) : BInv w' := by
  refine ⟨?_, ?_, ?_, ?_⟩
  · intro i sp hi hobj
    rcases hsub i sp hi with ⟨k, hk⟩ | he
    · exact hb.objCnt k sp hk hobj
    · rw [he] at hobj; simp at hobj
  · intro i sp o hi hobj
    rcases hsub i sp hi with ⟨k, hk⟩ | he
    · exact lt_of_lt_of_le (hb.objLt k sp o hk hobj) ho
    · rw [he] at hobj; simp at hobj
  · intro i sp c hi hcnt
    rcases hsub i sp hi with ⟨k, hk⟩ | he
    · exact lt_of_lt_of_le (hb.cntLt k sp c hk hcnt) hc
    · rw [he] at hcnt; simp at hcnt
  · intro i j sp sp' o hi hj hobj hobj'
    rcases hsub i sp hi with ⟨k, hk⟩ | he
    · rcases hsub j sp' hj with ⟨m, hm⟩ | he'
      · exact hb.share k m sp sp' o hk hm hobj hobj'
      · rw [he'] at hobj'; simp at hobj'
    · rw [he] at hobj; simp at hobj

theorem binv_init : BInv init := by
  refine ⟨?_, ?_, ?_, ?_⟩ <;> intro i <;> intros <;> simp_all [init, nth]

theorem binv_step (w : SState) (op : SOp) (hb : BInv w) : BInv (step w op) := by
  cases op with
  | construct =>
    refine BInv_of_subset w _ hb ?_ (le_refl _) (le_refl _)
    intro i sp hi
    rcases nth_append_cases _ _ _ _ hi with h1 | h2
    · exact Or.inl ⟨i, h1⟩
    · right
      exact Option.some_inj.mp h2.2
  | constructFresh =>
    refine ⟨?_, ?_, ?_, ?_⟩
    · intro i sp hi hobj
      rcases nth_append_cases _ _ _ _ hi with h1 | h2
      · exact hb.objCnt i sp h1 hobj
      · have : sp = ⟨some w.nextObj, some w.nextCnt⟩ := Option.some_inj.mp h2.2
        rw [this]
        simp
    · intro i sp o hi hobj
      rcases nth_append_cases _ _ _ _ hi with h1 | h2
      · have := hb.objLt i sp o h1 hobj
        show o < w.nextObj + 1
        omega
      · have hsp : sp = ⟨some w.nextObj, some w.nextCnt⟩ := Option.some_inj.mp h2.2
        rw [hsp] at hobj
        simp at hobj
        show o < w.nextObj + 1
        omega
    · intro i sp c hi hcnt
      rcases nth_append_cases _ _ _ _ hi with h1 | h2
      · have := hb.cntLt i sp c h1 hcnt
        show c < w.nextCnt + 1
        omega
      · have hsp : sp = ⟨some w.nextObj, some w.nextCnt⟩ := Option.some_inj.mp h2.2
        rw [hsp] at hcnt
        simp at hcnt
        show c < w.nextCnt + 1
        omega
    · intro i j sp sp' o hi hj hobj hobj'
      rcases nth_append_cases _ _ _ _ hi with h1 | h2 <;>
        rcases nth_append_cases _ _ _ _ hj with h1' | h2'
      · exact hb.share i j sp sp' o h1 h1' hobj hobj'
      · have hsp' : sp' = ⟨some w.nextObj, some w.nextCnt⟩ := Option.some_inj.mp h2'.2
        have := hb.objLt i sp o h1 hobj
        rw [hsp'] at hobj'
        simp at hobj'
        omega
      · have hsp : sp = ⟨some w.nextObj, some w.nextCnt⟩ := Option.some_inj.mp h2.2
        have := hb.objLt j sp' o h1' hobj'
        rw [hsp] at hobj
        simp at hobj
        omega
      · have hsp : sp = ⟨some w.nextObj, some w.nextCnt⟩ := Option.some_inj.mp h2.2
        have hsp' : sp' = ⟨some w.nextObj, some w.nextCnt⟩ := Option.some_inj.mp h2'.2
        rw [hsp, hsp']
  | constructNull =>
    refine ⟨?_, ?_, ?_, ?_⟩
    · intro i sp hi hobj
      rcases nth_append_cases _ _ _ _ hi with h1 | h2
      · exact hb.objCnt i sp h1 hobj
      · have : sp = ⟨none, some w.nextCnt⟩ := Option.some_inj.mp h2.2
        rw [this]
        simp
    · intro i sp o hi hobj
      rcases nth_append_cases _ _ _ _ hi with h1 | h2
      · exact hb.objLt i sp o h1 hobj
      · have hsp : sp = ⟨none, some w.nextCnt⟩ := Option.some_inj.mp h2.2
        rw [hsp] at hobj
        simp at hobj
    · intro i sp c hi hcnt
      rcases nth_append_cases _ _ _ _ hi with h1 | h2
      · have := hb.cntLt i sp c h1 hcnt
        show c < w.nextCnt + 1
        omega
      · have hsp : sp = ⟨none, some w.nextCnt⟩ := Option.some_inj.mp h2.2
        rw [hsp] at hcnt
        simp at hcnt
        show c < w.nextCnt + 1
        omega
    · intro i j sp sp' o hi hj hobj hobj'
      rcases nth_append_cases _ _ _ _ hi with h1 | h2
      · rcases nth_append_cases _ _ _ _ hj with h1' | h2'
        · exact hb.share i j sp sp' o h1 h1' hobj hobj'
        · have hsp' : sp' = ⟨none, some w.nextCnt⟩ := Option.some_inj.mp h2'.2
          rw [hsp'] at hobj'
          simp at hobj'
      · have hsp : sp = ⟨none, some w.nextCnt⟩ := Option.some_inj.mp h2.2
        rw [hsp] at hobj
        simp at hobj
  | copyConstruct i =>
    rcases hg : getLive w i with _ | sp
    · simpa [step, hg] using hb
    · have hn : nth w.ptrs i = some (some sp) := getLive_eq.mp hg
      refine BInv_of_subset w _ hb ?_ ?_ ?_
      · intro k sq hk
        rw [copyConstruct_ptrs w i sp hg] at hk
        rcases nth_append_cases _ _ _ _ hk with h1 | h2
        · exact Or.inl ⟨k, h1⟩
        · exact Or.inl ⟨i, by rw [hn, h2.2]⟩
      · rw [copyConstruct_nextObj w i sp hg]
      · rw [copyConstruct_nextCnt w i sp hg]
  | moveConstruct i =>
    rcases hg : getLive w i with _ | sp
    · simpa [step, hg] using hb
    · have hn : nth w.ptrs i = some (some sp) := getLive_eq.mp hg
      have hst : step w (SOp.moveConstruct i) =
          { w with ptrs := setN w.ptrs i (some ⟨none, none⟩) ++ [some sp] } :=
        moveConstruct_state w i sp hg
      refine BInv_of_subset w _ hb ?_ ?_ ?_
      · intro k sq hk
        rw [hst] at hk
        rcases nth_append_cases _ _ _ _ hk with h1 | h2
        · rcases nth_setN_cases _ _ _ _ _ h1 with h3 | h4
          · exact Or.inl ⟨k, h3⟩
          · exact Or.inr (Option.some_inj.mp h4)
        · exact Or.inl ⟨i, by rw [hn, h2.2]⟩
      · rw [hst]
      · rw [hst]
  | copyAssign i j =>
    rcases hgi : getLive w i with _ | spi
    · simpa [step, hgi] using hb
    · rcases hgj : getLive w j with _ | spj
      · simpa [step, hgi, hgj] using hb
      · have hnj : nth w.ptrs j = some (some spj) := getLive_eq.mp hgj
        refine BInv_of_subset w _ hb ?_ ?_ ?_
        · intro k sq hk
          rw [copyAssign_ptrs w i j spi spj hgi hgj] at hk
          rcases nth_setN_cases _ _ _ _ _ hk with h1 | h2
          · exact Or.inl ⟨k, h1⟩
          · exact Or.inl ⟨j, by rw [hnj, h2]⟩
        · rw [copyAssign_nextObj w i j spi spj hgi hgj]
        · rw [copyAssign_nextCnt w i j spi spj hgi hgj]
  | moveAssign i j =>
    rcases hgi : getLive w i with _ | spi
    · simpa [step, hgi] using hb
    · rcases hgj : getLive w j with _ | spj
      · simpa [step, hgi, hgj] using hb
      · have hnj : nth w.ptrs j = some (some spj) := getLive_eq.mp hgj
        refine BInv_of_subset w _ hb ?_ ?_ ?_
        · intro k sq hk
          rw [moveAssign_ptrs w i j spi spj hgi hgj] at hk
          rcases nth_setN_cases _ _ _ _ _ hk with h1 | h2
          · rcases nth_setN_cases _ _ _ _ _ h1 with h3 | h4
            · exact Or.inl ⟨k, h3⟩
            · exact Or.inl ⟨j, by rw [hnj, h4]⟩
          · exact Or.inr (Option.some_inj.mp h2)
        · rw [moveAssign_nextObj w i j spi spj hgi hgj]
        · rw [moveAssign_nextCnt w i j spi spj hgi hgj]
  | reset i =>
    rcases hg : getLive w i with _ | sp
    · simpa [step, hg] using hb
    · refine BInv_of_subset w _ hb ?_ ?_ ?_
      · intro k sq hk
        rw [reset_ptrs w i sp hg] at hk
        rcases nth_setN_cases _ _ _ _ _ hk with h1 | h2
        · exact Or.inl ⟨k, h1⟩
        · exact Or.inr (Option.some_inj.mp h2)
      · rw [reset_nextObj w i sp hg]
      · rw [reset_nextCnt w i sp hg]
  | resetFresh i =>
    rcases hg : getLive w i with _ | sp
    · simpa [step, hg] using hb
    · have hp := resetFresh_ptrs w i sp hg
      have hno := resetFresh_nextObj w i sp hg
      have hnc := resetFresh_nextCnt w i sp hg
      refine ⟨?_, ?_, ?_, ?_⟩
      · intro k sq hk hobj
        rw [hp] at hk
        rcases nth_setN_cases _ _ _ _ _ hk with h1 | h2
        · exact hb.objCnt k sq h1 hobj
        · have : sq = ⟨some w.nextObj, some w.nextCnt⟩ := Option.some_inj.mp h2
          rw [this]
          simp
      · intro k sq o hk hobj
        rw [hp] at hk
        rw [hno]
        rcases nth_setN_cases _ _ _ _ _ hk with h1 | h2
        · have := hb.objLt k sq o h1 hobj
          omega
        · have hsq : sq = ⟨some w.nextObj, some w.nextCnt⟩ := Option.some_inj.mp h2
          rw [hsq] at hobj
          simp at hobj
          omega
      · intro k sq c hk hcnt
        rw [hp] at hk
        rw [hnc]
        rcases nth_setN_cases _ _ _ _ _ hk with h1 | h2
        · have := hb.cntLt k sq c h1 hcnt
          omega
        · have hsq : sq = ⟨some w.nextObj, some w.nextCnt⟩ := Option.some_inj.mp h2
          rw [hsq] at hcnt
          simp at hcnt
          omega
      · intro k m sq sq' o hk hm hobj hobj'
        rw [hp] at hk hm
        rcases nth_setN_cases _ _ _ _ _ hk with h1 | h2 <;>
          rcases nth_setN_cases _ _ _ _ _ hm with h1' | h2'
        · exact hb.share k m sq sq' o h1 h1' hobj hobj'
        · have hsq' : sq' = ⟨some w.nextObj, some w.nextCnt⟩ := Option.some_inj.mp h2'
          have := hb.objLt k sq o h1 hobj
          rw [hsq'] at hobj'
          simp at hobj'
          omega
        · have hsq : sq = ⟨some w.nextObj, some w.nextCnt⟩ := Option.some_inj.mp h2
          have := hb.objLt m sq' o h1' hobj'
          rw [hsq] at hobj
          simp at hobj
          omega
        · have hsq : sq = ⟨some w.nextObj, some w.nextCnt⟩ := Option.some_inj.mp h2
          have hsq' : sq' = ⟨some w.nextObj, some w.nextCnt⟩ := Option.some_inj.mp h2'
          rw [hsq, hsq']
  | destroy i =>
    rcases hg : getLive w i with _ | sp
    · simpa [step, hg] using hb
    · refine BInv_of_subset w _ hb ?_ ?_ ?_
      · intro k sq hk
        rw [destroy_ptrs w i sp hg] at hk
        rcases nth_setN_cases _ _ _ _ _ hk with h1 | h2
        · exact Or.inl ⟨k, h1⟩
        · simp at h2
      · rw [destroy_nextObj w i sp hg]
      · rw [destroy_nextCnt w i sp hg]

theorem binv_foldl (t : List SOp) :
    ∀ (w : SState), BInv w → BInv (t.foldl step w) := by
  induction t with
  | nil => intro w h; simpa using h
  | cons op t ih =>
    intro w h
    exact ih (step w op) (binv_step w op h)

theorem binv_run (t : List SOp) : BInv (run t) := binv_foldl t init binv_init

/-! ### The reference-count invariant: preserved by clean operations -/

theorem setN_setN {α : Type} :
    ∀ (l : List α) (i : Nat) (x y : α), setN (setN l i x) i y = setN l i y := by
  intro l
  induction l with
  | nil => intro i x y; simp [setN]
  | cons a t ih =>
    intro i x y
    cases i with
    | zero => simp [setN]
    | succ n => simp [setN, ih]

theorem countRefs_zero_of_big (l : List (Option shared_ptr)) (B c : Nat)
    (h : ∀ i sp d, nth l i = some (some sp) → sp.m_use_count = some d → d < B)
    (hc : B ≤ c) : countRefs l c = 0 := by
  apply countRefs_zero
  intro i p hp
  cases p with
  | none => rfl
  | some sq =>
    cases hq : sq.m_use_count with
    | none => simp [refsC, hq]
    | some d =>
      have := h i sq d hp hq
      simp [refsC, hq]
      omega

theorem empty_of_no_cnt {w : SState} {i : Nat} {sp : shared_ptr}
    (hb : BInv w) (hn : nth w.ptrs i = some (some sp))
    (hc : sp.m_use_count = none) : sp = ⟨none, none⟩ := by
  have hobj : sp.m_object = none := by
    by_contra hne
    exact (hb.objCnt i sp hn hne) hc
  cases sp
  simp_all

theorem refsC_some_of (sp : shared_ptr) (c : Nat) (h : sp.m_use_count = some c) :
    refsC (some sp) c = true := by simp [refsC, h]

theorem refsC_some_ne (sp : shared_ptr) (c d : Nat) (h : sp.m_use_count = some d)
    (hne : d ≠ c) : refsC (some sp) c = false := by simp [refsC, h, hne]

theorem refsC_none_cnt (sp : shared_ptr) (c : Nat) (h : sp.m_use_count = none) :
    refsC (some sp) c = false := by simp [refsC, h]

/-- Releasing the reference of live instance `i`: the world obtained by
`decrement_use_count` on its fields followed by clearing slot `i` satisfies
the invariant again.  This is the destructor's transition, and the other
releasing operations are obtained from it by reviving slot `i`. -/
theorem inv_release (w : SState) (i : Nat) (sp : shared_ptr) (v' : SState)
    (h : Inv w) (hn : nth w.ptrs i = some (some sp))
    (hp : v'.ptrs = setN w.ptrs i none)
    (hcs : v'.cntStore = (decrement_use_count sp w).cntStore)
    (hcf : v'.cntFreed = (decrement_use_count sp w).cntFreed)
    (hof : v'.objFreed = (decrement_use_count sp w).objFreed)
    (hnc : v'.nextCnt = w.nextCnt) (hno : v'.nextObj = w.nextObj) : Inv v' := by
  have hbase : BInv v' := by
    refine BInv_of_subset w v' h.base ?_ (le_of_eq hno.symm) (le_of_eq hnc.symm)
    intro k sq hk
    rw [hp] at hk
    rcases nth_setN_cases _ _ _ _ _ hk with h1 | h2
    · exact Or.inl ⟨k, h1⟩
    · simp at h2
  have hlive : ∀ k sq, nth v'.ptrs k = some (some sq) →
      nth w.ptrs k = some (some sq) ∧ k ≠ i := by
    intro k sq hk
    rw [hp] at hk
    rcases nth_setN_cases _ _ _ _ _ hk with h1 | h2
    · refine ⟨h1, ?_⟩
      intro hki
      subst hki
      rw [nth_setN_self _ _ _ _ hn] at hk
      simp at hk
    · simp at h2
  have hcr : ∀ c, countRefs v'.ptrs c + (if refsC (some sp) c then 1 else 0) =
      countRefs w.ptrs c := by
    intro c
    rw [hp]
    have := countRefs_setN w.ptrs i (some sp) none c hn
    simpa [refsC] using this
  cases hc : sp.m_use_count with
  | none =>
    have hdec : decrement_use_count sp w = w := by
      simp [decrement_use_count, hc]
    rw [hdec] at hcs hcf hof
    have hcr0 : ∀ c, countRefs v'.ptrs c = countRefs w.ptrs c := by
      intro c
      have := hcr c
      rw [refsC_none_cnt sp c hc] at this
      simpa using this
    refine ⟨hbase, ?_, ?_, ?_, ?_, ?_, ?_, ?_⟩
    · intro k sq d hk hd
      rw [hcf]
      exact h.liveCntNotFreed k sq d (hlive k sq hk).1 hd
    · intro k sq o hk ho
      rw [hof]
      exact h.liveObjNotFreed k sq o (hlive k sq hk).1 ho
    · intro c hcm
      rw [hcf] at hcm
      rw [hcs, hcr0]
      exact h.valEq c hcm
    · intro c hcm
      rw [hcf] at hcm
      rw [hnc]
      exact h.cntFreedLt c hcm
    · intro o hom
      rw [hof] at hom
      rw [hno]
      exact h.objFreedLt o hom
    · intro c
      rw [hcf]
      exact h.cntFreedOnce c
    · intro o
      rw [hof]
      exact h.objFreedOnce o
  | some ci =>
    have hciF : ci ∉ w.cntFreed := h.liveCntNotFreed i sp ci hn hc
    have hlook : cntLookup w.cntStore ci = countRefs w.ptrs ci := h.valEq ci hciF
    have hpos : 1 ≤ countRefs w.ptrs ci := countRefs_pos w.ptrs i sp ci hn hc
    have hcrci : countRefs v'.ptrs ci + 1 = countRefs w.ptrs ci := by
      have := hcr ci
      rwa [refsC_some_of sp ci hc, if_pos rfl] at this
    have hcrne : ∀ c, c ≠ ci → countRefs v'.ptrs c = countRefs w.ptrs c := by
      intro c hcne
      have := hcr c
      rw [refsC_some_ne sp c ci hc (Ne.symm hcne)] at this
      simpa using this
    have hstore : (decrement_use_count sp w).cntStore =
        cntSet w.cntStore ci (cntLookup w.cntStore ci - 1) := by
      rw [decrement_cntStore]
      simp [hc]
    by_cases hone : cntLookup w.cntStore ci - 1 = 0
    · -- the decrement reaches zero: the object and the cell are freed
      have hn1 : countRefs w.ptrs ci = 1 := by omega
      have hfreed : (decrement_use_count sp w).cntFreed = ci :: w.cntFreed := by
        rw [decrement_cntFreed]
        simp [hc, hone]
      have hofreed : (decrement_use_count sp w).objFreed =
          (match sp.m_object with
           | some o => o :: w.objFreed
           | none => w.objFreed) := by
        rw [decrement_objFreed]
        simp [hc, hone]
      have honly : ∀ k sq, nth w.ptrs k = some (some sq) → k ≠ i →
          sq.m_use_count ≠ some ci := by
        intro k sq hk hki hq
        have := countRefs_two w.ptrs k i sq sp ci hki hk hn hq hc
        omega
      refine ⟨hbase, ?_, ?_, ?_, ?_, ?_, ?_, ?_⟩
      · intro k sq d hk hd
        obtain ⟨hkw, hki⟩ := hlive k sq hk
        rw [hcf, hfreed]
        intro hmem
        rcases List.mem_cons.mp hmem with h1 | h2
        · exact honly k sq hkw hki (by rw [hd, h1])
        · exact h.liveCntNotFreed k sq d hkw hd h2
      · intro k sq o hk ho
        obtain ⟨hkw, hki⟩ := hlive k sq hk
        rw [hof, hofreed]
        cases hso : sp.m_object with
        | none => exact h.liveObjNotFreed k sq o hkw ho
        | some oi =>
          simp only
          intro hmem
          rcases List.mem_cons.mp hmem with h1 | h2
          · -- sq references the freed object: it must share the cell ci
            have hsh := h.base.share k i sq sp o hkw hn ho (by rw [hso, h1])
            exact honly k sq hkw hki (by rw [hsh, hc])
          · exact h.liveObjNotFreed k sq o hkw ho h2
      · intro c hcm
        rw [hcf, hfreed] at hcm
        have hcne : c ≠ ci := by
          intro hh
          exact hcm (by rw [hh]; exact List.mem_cons_self _ _)
        have hcm' : c ∉ w.cntFreed := fun hh => hcm (List.mem_cons_of_mem _ hh)
        rw [hcs, hstore, cntLookup_cntSet_ne _ _ _ _ (Ne.symm hcne), hcrne c hcne]
        exact h.valEq c hcm'
      · intro c hcm
        rw [hcf, hfreed] at hcm
        rw [hnc]
        rcases List.mem_cons.mp hcm with h1 | h2
        · rw [h1]
          exact h.base.cntLt i sp ci hn hc
        · exact h.cntFreedLt c h2
      · intro o hom
        rw [hof, hofreed] at hom
        rw [hno]
        cases hso : sp.m_object with
        | none =>
          rw [hso] at hom
          exact h.objFreedLt o hom
        | some oi =>
          rw [hso] at hom
          rcases List.mem_cons.mp hom with h1 | h2
          · rw [h1]
            exact h.base.objLt i sp oi hn hso
          · exact h.objFreedLt o h2
      · intro c
        rw [hcf, hfreed]
        by_cases hcc : c = ci
        · subst hcc
          have : w.cntFreed.count c = 0 := List.count_eq_zero.mpr hciF
          simp [List.count_cons, this]
        · have := h.cntFreedOnce c
          simp [List.count_cons, hcc]
          omega
      · intro o
        rw [hof, hofreed]
        cases hso : sp.m_object with
        | none => exact h.objFreedOnce o
        | some oi =>
          have hoiF : oi ∉ w.objFreed := h.liveObjNotFreed i sp oi hn hso
          by_cases hoo : o = oi
          · subst hoo
            have : w.objFreed.count o = 0 := List.count_eq_zero.mpr hoiF
            simp [List.count_cons, this]
          · have := h.objFreedOnce o
            simp [List.count_cons, hoo]
            omega
    · -- the decrement stays positive: only the cell value changes
      have hfreed : (decrement_use_count sp w).cntFreed = w.cntFreed := by
        rw [decrement_cntFreed]
        simp [hc, hone]
      have hofreed : (decrement_use_count sp w).objFreed = w.objFreed := by
        rw [decrement_objFreed]
        simp [hc, hone]
      refine ⟨hbase, ?_, ?_, ?_, ?_, ?_, ?_, ?_⟩
      · intro k sq d hk hd
        rw [hcf, hfreed]
        exact h.liveCntNotFreed k sq d (hlive k sq hk).1 hd
      · intro k sq o hk ho
        rw [hof, hofreed]
        exact h.liveObjNotFreed k sq o (hlive k sq hk).1 ho
      · intro c hcm
        rw [hcf, hfreed] at hcm
        rw [hcs, hstore]
        by_cases hcc : c = ci
        · subst hcc
          rw [cntLookup_cntSet_self, hlook]
          omega
        · rw [cntLookup_cntSet_ne _ _ _ _ (Ne.symm hcc), hcrne c hcc]
          exact h.valEq c hcm
      · intro c hcm
        rw [hcf, hfreed] at hcm
        rw [hnc]
        exact h.cntFreedLt c hcm
      · intro o hom
        rw [hof, hofreed] at hom
        rw [hno]
        exact h.objFreedLt o hom
      · intro c
        rw [hcf, hfreed]
        exact h.cntFreedOnce c
      · intro o
        rw [hof, hofreed]
        exact h.objFreedOnce o

/-- Transitions that touch no heap cell and only rearrange, drop, or blank
instances preserve the invariant. -/
theorem inv_of_same_heap (v v' : SState) (h : Inv v)
    (hlive : ∀ k sq, nth v'.ptrs k = some (some sq) →
        (∃ m, nth v.ptrs m = some (some sq)) ∨ sq = ⟨none, none⟩)
    (hcr : ∀ c, countRefs v'.ptrs c = countRefs v.ptrs c)
    (hcs : v'.cntStore = v.cntStore) (hcf : v'.cntFreed = v.cntFreed)
    (hof : v'.objFreed = v.objFreed) (hnc : v'.nextCnt = v.nextCnt)
    (hno : v'.nextObj = v.nextObj) : Inv v' := by
  have hbase : BInv v' :=
    BInv_of_subset v v' h.base hlive (le_of_eq hno.symm) (le_of_eq hnc.symm)
  refine ⟨hbase, ?_, ?_, ?_, ?_, ?_, ?_, ?_⟩
  · intro k sq d hk hd
    rw [hcf]
    rcases hlive k sq hk with ⟨m, hm⟩ | he
    · exact h.liveCntNotFreed m sq d hm hd
    · rw [he] at hd; simp at hd
  · intro k sq o hk ho
    rw [hof]
    rcases hlive k sq hk with ⟨m, hm⟩ | he
    · exact h.liveObjNotFreed m sq o hm ho
    · rw [he] at ho; simp at ho
  · intro c hcm
    rw [hcf] at hcm
    rw [hcs, hcr]
    exact h.valEq c hcm
  · intro c hcm
    rw [hcf] at hcm
    rw [hnc]
    exact h.cntFreedLt c hcm
  · intro o hom
    rw [hof] at hom
    rw [hno]
    exact h.objFreedLt o hom
  · intro c
    rw [hcf]
    exact h.cntFreedOnce c
  · intro o
    rw [hof]
    exact h.objFreedOnce o

/-- Adding one more reference to an already live instance value `sp`
(the copy constructor and the aliasing half of copy assignment), with the
matching increment of its count cell, preserves the invariant. -/
theorem inv_add_ref (v v' : SState) (sp : shared_ptr) (h : Inv v)
    (hlive : ∀ m sq, nth v'.ptrs m = some (some sq) →
        (∃ m2, nth v.ptrs m2 = some (some sq)) ∨ sq = ⟨none, none⟩)
    (hcr : ∀ c, countRefs v'.ptrs c =
        countRefs v.ptrs c + (if refsC (some sp) c then 1 else 0))
    (hcs : v'.cntStore = (increment_use_count sp v).cntStore)
    (hcf : v'.cntFreed = v.cntFreed) (hof : v'.objFreed = v.objFreed)
    (hnc : v'.nextCnt = v.nextCnt) (hno : v'.nextObj = v.nextObj) : Inv v' := by
  have hbase : BInv v' :=
    BInv_of_subset v v' h.base hlive (le_of_eq hno.symm) (le_of_eq hnc.symm)
  have hstore : (increment_use_count sp v).cntStore =
      match sp.m_use_count with
      | none => v.cntStore
      | some c => cntSet v.cntStore c (cntLookup v.cntStore c + 1) :=
    increment_cntStore sp v
  refine ⟨hbase, ?_, ?_, ?_, ?_, ?_, ?_, ?_⟩
  · intro m sq d hm hd
    rw [hcf]
    rcases hlive m sq hm with ⟨m2, hm2⟩ | he
    · exact h.liveCntNotFreed m2 sq d hm2 hd
    · rw [he] at hd; simp at hd
  · intro m sq o hm ho
    rw [hof]
    rcases hlive m sq hm with ⟨m2, hm2⟩ | he
    · exact h.liveObjNotFreed m2 sq o hm2 ho
    · rw [he] at ho; simp at ho
  · intro c hcm
    rw [hcf] at hcm
    rw [hcs, hstore, hcr]
    cases hc : sp.m_use_count with
    | none =>
      rw [refsC_none_cnt sp c hc]
      simp
      exact h.valEq c hcm
    | some ci =>
      simp only
      by_cases hcc : c = ci
      · subst hcc
        rw [cntLookup_cntSet_self, refsC_some_of sp c hc, if_pos rfl,
          h.valEq c hcm]
      · rw [cntLookup_cntSet_ne _ _ _ _ (Ne.symm hcc),
          refsC_some_ne sp c ci hc (Ne.symm hcc)]
        simp
        exact h.valEq c hcm
  · intro c hcm
    rw [hcf] at hcm
    rw [hnc]
    exact h.cntFreedLt c hcm
  · intro o hom
    rw [hof] at hom
    rw [hno]
    exact h.objFreedLt o hom
  · intro c
    rw [hcf]
    exact h.cntFreedOnce c
  · intro o
    rw [hof]
    exact h.objFreedOnce o

/-- Adding one instance holding a freshly allocated count cell initialised to
`1` (construction from a raw — fresh or null — pointer, and the second half
of `reset(pointer)`) preserves the invariant. -/
theorem inv_add_fresh (v v' : SState) (ob : Option Nat) (h : Inv v)
    (hob : ob = none ∨ ob = some v.nextObj)
    (hlive : ∀ m sq, nth v'.ptrs m = some (some sq) →
        (∃ m2, nth v.ptrs m2 = some (some sq)) ∨ sq = ⟨ob, some v.nextCnt⟩)
    (hcr : ∀ c, countRefs v'.ptrs c =
        countRefs v.ptrs c +
          (if refsC (some ⟨ob, some v.nextCnt⟩) c then 1 else 0))
    (hcs : v'.cntStore = cntSet v.cntStore v.nextCnt 1)
    (hcf : v'.cntFreed = v.cntFreed) (hof : v'.objFreed = v.objFreed)
    (hnc : v'.nextCnt = v.nextCnt + 1)
    (hno1 : v.nextObj ≤ v'.nextObj)
    (hno2 : ∀ o, ob = some o → o < v'.nextObj) : Inv v' := by
  have hfreshF : v.nextCnt ∉ v.cntFreed := by
    intro hmem
    have := h.cntFreedLt v.nextCnt hmem
    omega
  have hzero : countRefs v.ptrs v.nextCnt = 0 :=
    countRefs_zero_of_big v.ptrs v.nextCnt v.nextCnt h.base.cntLt (le_refl _)
  have hbase : BInv v' := by
    refine ⟨?_, ?_, ?_, ?_⟩
    · intro m sq hm hobj
      rcases hlive m sq hm with ⟨m2, hm2⟩ | he
      · exact h.base.objCnt m2 sq hm2 hobj
      · rw [he]; simp
    · intro m sq o hm hobj
      rcases hlive m sq hm with ⟨m2, hm2⟩ | he
      · exact lt_of_lt_of_le (h.base.objLt m2 sq o hm2 hobj) hno1
      · rw [he] at hobj
        exact hno2 o (by simpa using hobj)
    · intro m sq c hm hcnt
      rw [hnc]
      rcases hlive m sq hm with ⟨m2, hm2⟩ | he
      · have := h.base.cntLt m2 sq c hm2 hcnt
        omega
      · rw [he] at hcnt
        simp at hcnt
        omega
    · intro m m2 sq sq' o hm hm2 hobj hobj'
      rcases hlive m sq hm with ⟨m3, hm3⟩ | he <;>
        rcases hlive m2 sq' hm2 with ⟨m4, hm4⟩ | he'
      · exact h.base.share m3 m4 sq sq' o hm3 hm4 hobj hobj'
      · have := h.base.objLt m3 sq o hm3 hobj
        rw [he'] at hobj'
        rcases hob with h0 | h0 <;> rw [h0] at hobj'
        · simp at hobj'
        · simp at hobj'
          omega
      · have := h.base.objLt m4 sq' o hm4 hobj'
        rw [he] at hobj
        rcases hob with h0 | h0 <;> rw [h0] at hobj
        · simp at hobj
        · simp at hobj
          omega
      · rw [he, he']
  refine ⟨hbase, ?_, ?_, ?_, ?_, ?_, ?_, ?_⟩
  · intro m sq c hm hc
    rw [hcf]
    rcases hlive m sq hm with ⟨m2, hm2⟩ | he
    · exact h.liveCntNotFreed m2 sq c hm2 hc
    · rw [he] at hc
      simp at hc
      subst hc
      exact hfreshF
  · intro m sq o hm ho
    rw [hof]
    rcases hlive m sq hm with ⟨m2, hm2⟩ | he
    · exact h.liveObjNotFreed m2 sq o hm2 ho
    · rw [he] at ho
      rcases hob with h0 | h0 <;> rw [h0] at ho
      · simp at ho
      · simp at ho
        subst ho
        intro hmem
        have := h.objFreedLt v.nextObj hmem
        omega
  · intro c hcm
    rw [hcf] at hcm
    rw [hcs, hcr]
    by_cases hcc : c = v.nextCnt
    · subst hcc
      rw [cntLookup_cntSet_self, hzero]
      have hr : refsC (some ⟨ob, some v.nextCnt⟩) v.nextCnt = true := by
        simp [refsC]
      rw [hr]
      simp
    · rw [cntLookup_cntSet_ne _ _ _ _ (Ne.symm hcc)]
      have : refsC (some ⟨ob, some v.nextCnt⟩) c = false := by
        simp [refsC]
        omega
      rw [this]
      simp
      exact h.valEq c hcm
  · intro c hcm
    rw [hcf] at hcm
    rw [hnc]
    have := h.cntFreedLt c hcm
    omega
  · intro o hom
    rw [hof] at hom
    exact lt_of_lt_of_le (h.objFreedLt o hom) hno1
  · intro c
    rw [hcf]
    exact h.cntFreedOnce c
  · intro o
    rw [hof]
    exact h.objFreedOnce o

/-! ### Invariant preservation, operation by operation -/

theorem inv_construct (w : SState) (h : Inv w) : Inv (step w SOp.construct) := by
  refine inv_of_same_heap w _ h ?_ ?_ rfl rfl rfl rfl rfl
  · intro k sq hk
    rcases nth_append_cases _ _ _ _ hk with h1 | h2
    · exact Or.inl ⟨k, h1⟩
    · exact Or.inr (Option.some_inj.mp h2.2)
  · intro c
    show countRefs (w.ptrs ++ [some ⟨none, none⟩]) c = countRefs w.ptrs c
    rw [countRefs_append]
    simp [refsC]

theorem inv_constructFresh (w : SState) (h : Inv w) :
    Inv (step w SOp.constructFresh) := by
  refine inv_add_fresh w _ (some w.nextObj) h (Or.inr rfl) ?_ ?_ rfl rfl rfl rfl
    ?_ ?_
  · intro m sq hm
    rcases nth_append_cases _ _ _ _ hm with h1 | h2
    · exact Or.inl ⟨m, h1⟩
    · exact Or.inr (Option.some_inj.mp h2.2)
  · intro c
    show countRefs (w.ptrs ++ [some ⟨some w.nextObj, some w.nextCnt⟩]) c = _
    rw [countRefs_append]
  · show w.nextObj ≤ w.nextObj + 1
    omega
  · intro o ho
    have : w.nextObj = o := by simpa using ho
    show o < w.nextObj + 1
    omega

theorem inv_constructNull (w : SState) (h : Inv w) :
    Inv (step w SOp.constructNull) := by
  refine inv_add_fresh w _ none h (Or.inl rfl) ?_ ?_ rfl rfl rfl rfl
    (le_refl _) ?_
  · intro m sq hm
    rcases nth_append_cases _ _ _ _ hm with h1 | h2
    · exact Or.inl ⟨m, h1⟩
    · exact Or.inr (Option.some_inj.mp h2.2)
  · intro c
    show countRefs (w.ptrs ++ [some ⟨none, some w.nextCnt⟩]) c = _
    rw [countRefs_append]
  · intro o ho
    simp at ho

theorem inv_copyConstruct (w : SState) (i : Nat) (h : Inv w) :
    Inv (step w (SOp.copyConstruct i)) := by
  rcases hg : getLive w i with _ | sp
  · simpa [step, hg] using h
  · have hn : nth w.ptrs i = some (some sp) := getLive_eq.mp hg
    refine inv_add_ref w _ sp h ?_ ?_
      ((copyConstruct_cntStore w i sp hg).trans (increment_cntStore sp w).symm)
      (copyConstruct_cntFreed w i sp hg) (copyConstruct_objFreed w i sp hg)
      (copyConstruct_nextCnt w i sp hg) (copyConstruct_nextObj w i sp hg)
    · intro m sq hm
      rw [copyConstruct_ptrs w i sp hg] at hm
      rcases nth_append_cases _ _ _ _ hm with h1 | h2
      · exact Or.inl ⟨m, h1⟩
      · exact Or.inl ⟨i, by rw [hn, h2.2]⟩
    · intro c
      rw [copyConstruct_ptrs w i sp hg, countRefs_append]

theorem inv_moveConstruct (w : SState) (i : Nat) (h : Inv w) :
    Inv (step w (SOp.moveConstruct i)) := by
  rcases hg : getLive w i with _ | sp
  · simpa [step, hg] using h
  · have hn : nth w.ptrs i = some (some sp) := getLive_eq.mp hg
    have hst := moveConstruct_state w i sp hg
    have hp : (step w (SOp.moveConstruct i)).ptrs =
        setN w.ptrs i (some ⟨none, none⟩) ++ [some sp] := by rw [hst]
    refine inv_of_same_heap w _ h ?_ ?_ (by rw [hst]) (by rw [hst]) (by rw [hst])
      (by rw [hst]) (by rw [hst])
    · intro k sq hk
      rw [hp] at hk
      rcases nth_append_cases _ _ _ _ hk with h1 | h2
      · rcases nth_setN_cases _ _ _ _ _ h1 with h3 | h4
        · exact Or.inl ⟨k, h3⟩
        · exact Or.inr (Option.some_inj.mp h4)
      · exact Or.inl ⟨i, by rw [hn, h2.2]⟩
    · intro c
      rw [hp, countRefs_append]
      have e1 := countRefs_setN w.ptrs i (some sp) (some ⟨none, none⟩) c hn
      have hre : refsC (some ⟨none, none⟩) c = false := by simp [refsC]
      rw [hre] at e1
      simp at e1
      omega

theorem inv_destroy (w : SState) (i : Nat) (h : Inv w) :
    Inv (step w (SOp.destroy i)) := by
  rcases hg : getLive w i with _ | sp
  · simpa [step, hg] using h
  · exact inv_release w i sp _ h (getLive_eq.mp hg)
      (destroy_ptrs w i sp hg) (destroy_cntStore w i sp hg)
      (destroy_cntFreed w i sp hg) (destroy_objFreed w i sp hg)
      (destroy_nextCnt w i sp hg) (destroy_nextObj w i sp hg)

theorem inv_reset (w : SState) (i : Nat) (h : Inv w) :
    Inv (step w (SOp.reset i)) := by
  rcases hg : getLive w i with _ | sp
  · simpa [step, hg] using h
  · have hn : nth w.ptrs i = some (some sp) := getLive_eq.mp hg
    have hInvR : Inv (SState.mk (setN w.ptrs i none)
        (decrement_use_count sp w).cntStore (decrement_use_count sp w).cntFreed
        (decrement_use_count sp w).objFreed w.nextCnt w.nextObj) :=
      inv_release w i sp _ h hn rfl rfl rfl rfl rfl rfl
    refine inv_of_same_heap _ _ hInvR ?_ ?_ (reset_cntStore w i sp hg)
      (reset_cntFreed w i sp hg) (reset_objFreed w i sp hg)
      (reset_nextCnt w i sp hg) (reset_nextObj w i sp hg)
    · intro k sq hk
      rw [reset_ptrs w i sp hg] at hk
      by_cases hki : k = i
      · subst hki
        rw [nth_setN_self _ _ _ _ hn] at hk
        exact Or.inr (Option.some_inj.mp (Option.some_inj.mp hk)).symm
      · rw [nth_setN_ne _ _ _ _ (fun hh => hki hh.symm)] at hk
        refine Or.inl ⟨k, ?_⟩
        show nth (setN w.ptrs i none) k = some (some sq)
        rw [nth_setN_ne _ _ _ _ (fun hh => hki hh.symm)]
        exact hk
    · intro c
      rw [reset_ptrs w i sp hg]
      show countRefs (setN w.ptrs i (some ⟨none, none⟩)) c =
        countRefs (setN w.ptrs i none) c
      have e1 := countRefs_setN w.ptrs i (some sp) (some ⟨none, none⟩) c hn
      have e2 := countRefs_setN w.ptrs i (some sp) none c hn
      have hre : refsC (some ⟨none, none⟩) c = false := by simp [refsC]
      have hrn : refsC none c = false := rfl
      rw [hre] at e1
      rw [hrn] at e2
      omega

theorem inv_resetFresh (w : SState) (i : Nat) (h : Inv w) :
    Inv (step w (SOp.resetFresh i)) := by
  rcases hg : getLive w i with _ | sp
  · simpa [step, hg] using h
  · have hn : nth w.ptrs i = some (some sp) := getLive_eq.mp hg
    have hInvR : Inv (SState.mk (setN w.ptrs i none)
        (decrement_use_count sp w).cntStore (decrement_use_count sp w).cntFreed
        (decrement_use_count sp w).objFreed w.nextCnt w.nextObj) :=
      inv_release w i sp _ h hn rfl rfl rfl rfl rfl rfl
    refine inv_add_fresh _ _ (some w.nextObj) hInvR (Or.inr rfl) ?_ ?_
      (resetFresh_cntStore w i sp hg) (resetFresh_cntFreed w i sp hg)
      (resetFresh_objFreed w i sp hg) (resetFresh_nextCnt w i sp hg) ?_ ?_
    · intro m sq hm
      rw [resetFresh_ptrs w i sp hg] at hm
      by_cases hmi : m = i
      · subst hmi
        rw [nth_setN_self _ _ _ _ hn] at hm
        exact Or.inr (Option.some_inj.mp (Option.some_inj.mp hm)).symm
      · rw [nth_setN_ne _ _ _ _ (fun hh => hmi hh.symm)] at hm
        refine Or.inl ⟨m, ?_⟩
        show nth (setN w.ptrs i none) m = some (some sq)
        rw [nth_setN_ne _ _ _ _ (fun hh => hmi hh.symm)]
        exact hm
    · intro c
      rw [resetFresh_ptrs w i sp hg]
      show countRefs (setN w.ptrs i (some ⟨some w.nextObj, some w.nextCnt⟩)) c =
        countRefs (setN w.ptrs i none) c +
          (if refsC (some ⟨some w.nextObj, some w.nextCnt⟩) c then 1 else 0)
      have e1 := countRefs_setN w.ptrs i (some sp)
        (some ⟨some w.nextObj, some w.nextCnt⟩) c hn
      have e2 := countRefs_setN w.ptrs i (some sp) none c hn
      have hrn : refsC none c = false := rfl
      rw [hrn] at e2
      simp at e2
      omega
    · rw [resetFresh_nextObj w i sp hg]
      show w.nextObj ≤ w.nextObj + 1
      omega
    · intro o ho
      have : w.nextObj = o := by simpa using ho
      rw [resetFresh_nextObj w i sp hg]
      omega

theorem inv_copyAssign (w : SState) (i j : Nat) (hij : i ≠ j) (h : Inv w) :
    Inv (step w (SOp.copyAssign i j)) := by
  rcases hgi : getLive w i with _ | spi
  · simpa [step, hgi] using h
  rcases hgj : getLive w j with _ | spj
  · simpa [step, hgi, hgj] using h
  have hni : nth w.ptrs i = some (some spi) := getLive_eq.mp hgi
  have hnj : nth w.ptrs j = some (some spj) := getLive_eq.mp hgj
  have hInvR : Inv (SState.mk (setN w.ptrs i none)
      (decrement_use_count spi w).cntStore (decrement_use_count spi w).cntFreed
      (decrement_use_count spi w).objFreed w.nextCnt w.nextObj) :=
    inv_release w i spi _ h hni rfl rfl rfl rfl rfl rfl
  have hjR : nth (setN w.ptrs i none) j = some (some spj) := by
    rw [nth_setN_ne _ _ _ _ hij]
    exact hnj
  refine inv_add_ref _ _ spj hInvR ?_ ?_ ?_
    (copyAssign_cntFreed w i j spi spj hgi hgj)
    (copyAssign_objFreed w i j spi spj hgi hgj)
    (copyAssign_nextCnt w i j spi spj hgi hgj)
    (copyAssign_nextObj w i j spi spj hgi hgj)
  · intro m sq hm
    rw [copyAssign_ptrs w i j spi spj hgi hgj] at hm
    by_cases hmi : m = i
    · subst hmi
      rw [nth_setN_self _ _ _ _ hni] at hm
      refine Or.inl ⟨j, ?_⟩
      rw [hjR]
      exact hm
    · rw [nth_setN_ne _ _ _ _ (fun hh => hmi hh.symm)] at hm
      refine Or.inl ⟨m, ?_⟩
      show nth (setN w.ptrs i none) m = some (some sq)
      rw [nth_setN_ne _ _ _ _ (fun hh => hmi hh.symm)]
      exact hm
  · intro c
    rw [copyAssign_ptrs w i j spi spj hgi hgj]
    show countRefs (setN w.ptrs i (some spj)) c =
      countRefs (setN w.ptrs i none) c + (if refsC (some spj) c then 1 else 0)
    have e1 := countRefs_setN w.ptrs i (some spi) (some spj) c hni
    have e2 := countRefs_setN w.ptrs i (some spi) none c hni
    have hrn : refsC none c = false := rfl
    rw [hrn] at e2
    simp at e2
    omega
  · show (step w (SOp.copyAssign i j)).cntStore = _
    rw [copyAssign_cntStore w i j spi spj hgi hgj, increment_cntStore]

theorem inv_moveAssign (w : SState) (i j : Nat) (hij : i ≠ j) (h : Inv w) :
    Inv (step w (SOp.moveAssign i j)) := by
  rcases hgi : getLive w i with _ | spi
  · simpa [step, hgi] using h
  rcases hgj : getLive w j with _ | spj
  · simpa [step, hgi, hgj] using h
  have hni : nth w.ptrs i = some (some spi) := getLive_eq.mp hgi
  have hnj : nth w.ptrs j = some (some spj) := getLive_eq.mp hgj
  have hInvR : Inv (SState.mk (setN w.ptrs i none)
      (decrement_use_count spi w).cntStore (decrement_use_count spi w).cntFreed
      (decrement_use_count spi w).objFreed w.nextCnt w.nextObj) :=
    inv_release w i spi _ h hni rfl rfl rfl rfl rfl rfl
  have hjR : nth (setN w.ptrs i none) j = some (some spj) := by
    rw [nth_setN_ne _ _ _ _ hij]
    exact hnj
  have hL1j : nth (setN w.ptrs i (some spj)) j = some (some spj) := by
    rw [nth_setN_ne _ _ _ _ hij]
    exact hnj
  refine inv_of_same_heap _ _ hInvR ?_ ?_
    (moveAssign_cntStore w i j spi spj hgi hgj)
    (moveAssign_cntFreed w i j spi spj hgi hgj)
    (moveAssign_objFreed w i j spi spj hgi hgj)
    (moveAssign_nextCnt w i j spi spj hgi hgj)
    (moveAssign_nextObj w i j spi spj hgi hgj)
  · intro m sq hm
    rw [moveAssign_ptrs w i j spi spj hgi hgj] at hm
    by_cases hmj : m = j
    · subst hmj
      rw [nth_setN_self _ _ _ _ hL1j] at hm
      exact Or.inr (Option.some_inj.mp (Option.some_inj.mp hm)).symm
    · rw [nth_setN_ne _ _ _ _ (fun hh => hmj hh.symm)] at hm
      by_cases hmi : m = i
      · subst hmi
        rw [nth_setN_self _ _ _ _ hni] at hm
        refine Or.inl ⟨j, ?_⟩
        rw [hjR]
        exact hm
      · rw [nth_setN_ne _ _ _ _ (fun hh => hmi hh.symm)] at hm
        refine Or.inl ⟨m, ?_⟩
        show nth (setN w.ptrs i none) m = some (some sq)
        rw [nth_setN_ne _ _ _ _ (fun hh => hmi hh.symm)]
        exact hm
  · intro c
    rw [moveAssign_ptrs w i j spi spj hgi hgj]
    show countRefs (setN (setN w.ptrs i (some spj)) j (some ⟨none, none⟩)) c =
      countRefs (setN w.ptrs i none) c
    have e1 := countRefs_setN w.ptrs i (some spi) (some spj) c hni
    have e2 := countRefs_setN (setN w.ptrs i (some spj)) j (some spj)
      (some ⟨none, none⟩) c hL1j
    have e3 := countRefs_setN w.ptrs i (some spi) none c hni
    have hre : refsC (some ⟨none, none⟩) c = false := by simp [refsC]
    have hrn : refsC none c = false := rfl
    rw [hre] at e2
    rw [hrn] at e3
    omega

/-- Preservation of the reference-count invariant by every clean
operation. -/
theorem inv_step (w : SState) (op : SOp) (hcl : cleanOp op = true)
    (h : Inv w) : Inv (step w op) := by
  cases op with
  | construct => exact inv_construct w h
  | constructFresh => exact inv_constructFresh w h
  | constructNull => exact inv_constructNull w h
  | copyConstruct i => exact inv_copyConstruct w i h
  | moveConstruct i => exact inv_moveConstruct w i h
  | copyAssign i j =>
    exact inv_copyAssign w i j (by simpa [cleanOp] using hcl) h
  | moveAssign i j =>
    exact inv_moveAssign w i j (by simpa [cleanOp] using hcl) h
  | reset i => exact inv_reset w i h
  | resetFresh i => exact inv_resetFresh w i h
  | destroy i => exact inv_destroy w i h

theorem inv_init : Inv init := by
  refine ⟨binv_init, ?_, ?_, ?_, ?_, ?_, ?_, ?_⟩ <;>
    intro a <;> intros <;> simp_all [init, nth, cntLookup, countRefs]

theorem inv_foldl (t : List SOp) :
    ∀ (w : SState), (∀ op ∈ t, cleanOp op = true) → Inv w →
      Inv (t.foldl step w) := by
  induction t with
  | nil => intro w _ h; simpa using h
  | cons op t ih =>
    intro w hcl h
    exact ih (step w op)
      (fun o ho => hcl o (List.mem_cons_of_mem _ ho))
      (inv_step w op (hcl op (List.mem_cons_self _ _)) h)

theorem inv_run (t : List SOp) (hcl : Clean t) : Inv (run t) :=
  inv_foldl t init hcl inv_init

/-! ### Claim theorems -/

/-- C2.  The claim fails on the code: `shared_ptr::operator=` has no
self-assignment guard.  Self-copy-assigning the sole owner first drives the
count to zero, releasing the object and the count cell, then copies the now
dangling members back and resurrects the freed cell, so the instance still
claims ownership of a released object (`objFreed = [0]` while slot `0` still
holds object `0`); its destruction then releases the same object a second
time (`objFreed = [0, 0]`).  Self-move-assigning likewise empties the sole
owner and releases its object, for `shared_ptr` and for `unique_ptr`, though
the claim requires ownership to be unchanged. -/
theorem claim_C2 :
    (run [SOp.constructFresh, SOp.copyAssign 0 0]).objFreed = [0] ∧
    getLive (run [SOp.constructFresh, SOp.copyAssign 0 0]) 0 =
      some ⟨some 0, some 0⟩ ∧
    (run [SOp.constructFresh, SOp.copyAssign 0 0, SOp.destroy 0]).objFreed = [0, 0] ∧
    (run [SOp.constructFresh, SOp.copyAssign 0 0, SOp.destroy 0]).cntFreed = [0, 0] ∧
    boolAt (run [SOp.constructFresh, SOp.moveAssign 0 0]) 0 = false ∧
    (run [SOp.constructFresh, SOp.moveAssign 0 0]).objFreed = [0] ∧
    uboolAt (urun [UOp.constructFresh, UOp.moveAssign 0 0]) 0 = false ∧
    (urun [UOp.constructFresh, UOp.moveAssign 0 0]).objFreed = [0] := by
  decide

/-- C1, counterexample.  The invariant fails on a sequence built from the
listed operations: after `copyAssign 0 0` on the sole owner the object has
been released (`objFreed = [0]`) while one live instance still references its
count cell, and the full sequence releases the object twice, not exactly
once. -/
theorem claim_C1_cex :
    countRefs (run [SOp.constructFresh, SOp.copyAssign 0 0]).ptrs 0 = 1 ∧
    (run [SOp.constructFresh, SOp.copyAssign 0 0]).objFreed = [0] ∧
    (run [SOp.constructFresh, SOp.copyAssign 0 0, SOp.destroy 0]).objFreed = [0, 0] := by
  decide

/-- C4, counterexample.  Two parts of the claim fail on the code.  First, the
check-then-free release sequence runs twice for the same count cell on a
self-copy-assignment trace: cell `0` appears twice in the free log.  Second,
the destination of a move assignment does not become empty: after
`a = move(b)` between two distinct owners, slot `0` (the destination)
converts to `true` and holds `b`'s transferred object and counter. -/
theorem claim_C4_cex :
    (run [SOp.constructNull, SOp.copyAssign 0 0, SOp.destroy 0]).cntFreed = [0, 0] ∧
    boolAt (run [SOp.constructFresh, SOp.constructFresh, SOp.moveAssign 0 1]) 0 = true ∧
    getLive (run [SOp.constructFresh, SOp.constructFresh, SOp.moveAssign 0 1]) 0 =
      some ⟨some 1, some 1⟩ := by
  decide

/-- C3, counterexample.  Constructing a `shared_ptr` from a null raw pointer
(lines 20-23) allocates a count cell while the object member stays null, so a
reachable instance has a non-null counter reference and a null object
reference — the claimed "if and only if" fails in that direction. -/
theorem claim_C3_cex :
    getLive (run [SOp.constructNull]) 0 = some ⟨none, some 0⟩ ∧
    (shared_ptr.mk none (some 0)).m_object = none ∧
    (shared_ptr.mk none (some 0)).m_use_count ≠ none := by
  decide

/-- C5, counterexample.  Move-assigning from a non-empty source whose counter
the destination already shares does alter that counter: with two aliases
(count `2`), `a = move(b)` first releases `a`'s reference, dropping the
shared count to `1`.  The source still becomes empty. -/
theorem claim_C5_cex :
    useCountAt (run [SOp.constructFresh, SOp.copyConstruct 0]) 1 = 2 ∧
    boolAt (run [SOp.constructFresh, SOp.copyConstruct 0]) 1 = true ∧
    useCountAt (run [SOp.constructFresh, SOp.copyConstruct 0, SOp.moveAssign 0 1]) 0 = 1 ∧
    boolAt (run [SOp.constructFresh, SOp.copyConstruct 0, SOp.moveAssign 0 1]) 1 = false := by
  decide

/-- C6.  `use_count` returns the value of the count cell whenever the
instance holds one (`m_use_count` non-null), and returns `0` when the
instance is empty (the default-constructed state: both members null). -/
theorem claim_C6 (sp : shared_ptr) (mem : List (Nat × Nat)) (c : Nat) :
    (sp.m_use_count = some c → sp.use_count mem = cntLookup mem c) ∧
    (sp.m_object = none ∧ sp.m_use_count = none → sp.use_count mem = 0) := by
  constructor
  · intro h; simp [shared_ptr.use_count, h]
  · intro h; simp [shared_ptr.use_count, h.2]

/-- Witness for C6 at a concrete instance and store. -/
theorem claim_C6_witness :
    ((shared_ptr.mk (some 3) (some 1)).m_use_count = some 1 →
      (shared_ptr.mk (some 3) (some 1)).use_count [(1, 7)] = cntLookup [(1, 7)] 1) ∧
    ((shared_ptr.mk (some 3) (some 1)).m_object = none ∧
      (shared_ptr.mk (some 3) (some 1)).m_use_count = none →
      (shared_ptr.mk (some 3) (some 1)).use_count [(1, 7)] = 0) :=
  claim_C6 (shared_ptr.mk (some 3) (some 1)) [(1, 7)] 1

/-- C9.  Constructing a `shared_ptr` from a null raw pointer allocates a
count cell initialised to `1`: the new instance converts to `false`, its
`use_count` is `1` and `unique` is `true`. -/
theorem claim_C9 (w : SState) :
    getLive (step w SOp.constructNull) w.ptrs.length =
      some ⟨none, some w.nextCnt⟩ ∧
    boolAt (step w SOp.constructNull) w.ptrs.length = false ∧
    useCountAt (step w SOp.constructNull) w.ptrs.length = 1 ∧
    uniqueAt (step w SOp.constructNull) w.ptrs.length = true := by
  have hg : getLive (step w SOp.constructNull) w.ptrs.length =
      some ⟨none, some w.nextCnt⟩ := by
    simp [step, getLive, nth_append_self]
  refine ⟨hg, ?_, ?_, ?_⟩
  · simp [boolAt, hg, shared_ptr.boolConv]
  · rw [useCountAt, hg]
    simp [shared_ptr.use_count, step, cntLookup_cntSet_self]
  · rw [uniqueAt, hg]
    simp [shared_ptr.unique, step, cntLookup_cntSet_self]

/-- C8.  `unique_ptr` move assignment between distinct instances: the object
previously owned by the destination is deleted (logged in `objFreed`), the
source's object is transferred to the destination, and the source becomes
empty. -/
theorem claim_C8 (w : UState) (i j : Nat) (pi pj : unique_ptr)
    (hij : i ≠ j) (hi : ugetLive w i = some pi) (hj : ugetLive w j = some pj) :
    ugetLive (ustep w (UOp.moveAssign i j)) i = some pj ∧
    ugetLive (ustep w (UOp.moveAssign i j)) j = some ⟨none⟩ ∧
    uboolAt (ustep w (UOp.moveAssign i j)) j = false ∧
    (ustep w (UOp.moveAssign i j)).objFreed =
      (match pi.m_object with
       | some o => o :: w.objFreed
       | none => w.objFreed) := by
  have hni : nth w.ptrs i = some (some pi) := ugetLive_eq.mp hi
  have hnj : nth w.ptrs j = some (some pj) := ugetLive_eq.mp hj
  have hstep : ustep w (UOp.moveAssign i j) =
      { udelete pi.m_object w with
        ptrs := setN (setN (udelete pi.m_object w).ptrs i (some pj)) j
          (some ⟨none⟩) } := by
    simp [ustep, hi, hj]
  have hptrs : (ustep w (UOp.moveAssign i j)).ptrs =
      setN (setN w.ptrs i (some pj)) j (some ⟨none⟩) := by
    rw [hstep]; simp [udelete_ptrs]
  have hi' : nth (ustep w (UOp.moveAssign i j)).ptrs i = some (some pj) := by
    rw [hptrs, nth_setN_ne _ j i _ (Ne.symm hij)]
    exact nth_setN_self _ _ _ _ hni
  have hj' : nth (ustep w (UOp.moveAssign i j)).ptrs j = some (some ⟨none⟩) := by
    rw [hptrs]
    have : nth (setN w.ptrs i (some pj)) j = some (some pj) := by
      rw [nth_setN_ne _ i j _ hij]; exact hnj
    exact nth_setN_self _ _ _ _ this
  refine ⟨ugetLive_eq.mpr hi', ugetLive_eq.mpr hj', ?_, ?_⟩
  · simp [uboolAt, ugetLive_eq.mpr hj', unique_ptr.boolConv]
  · rw [hstep]; simp [udelete_objFreed]

/-- Witness for C8: moving `b` (owning object `1`) into `a` (owning object
`0`) deletes object `0`, transfers object `1` to `a`, and empties `b`. -/
theorem claim_C8_witness :
    ugetLive (ustep (urun [UOp.constructFresh, UOp.constructFresh])
      (UOp.moveAssign 0 1)) 0 = some ⟨some 1⟩ ∧
    ugetLive (ustep (urun [UOp.constructFresh, UOp.constructFresh])
      (UOp.moveAssign 0 1)) 1 = some ⟨none⟩ ∧
    uboolAt (ustep (urun [UOp.constructFresh, UOp.constructFresh])
      (UOp.moveAssign 0 1)) 1 = false ∧
    (ustep (urun [UOp.constructFresh, UOp.constructFresh])
      (UOp.moveAssign 0 1)).objFreed =
      (match (unique_ptr.mk (some 0)).m_object with
       | some o => o :: (urun [UOp.constructFresh, UOp.constructFresh]).objFreed
       | none => (urun [UOp.constructFresh, UOp.constructFresh]).objFreed) :=
  claim_C8 (urun [UOp.constructFresh, UOp.constructFresh]) 0 1
    (unique_ptr.mk (some 0)) (unique_ptr.mk (some 1))
    (by decide) (by decide) (by decide)

/-- C3, as amended.  In every reachable world (any trace): a live instance
with a non-null object reference has a non-null counter reference — the
converse direction of the claimed "if and only if" fails after construction
from a null raw pointer, see the counterexample — and any two live instances
referencing the same object share the identical counter reference. -/
theorem claim_C3 (t : List SOp) :
    (∀ i sp, nth (run t).ptrs i = some (some sp) →
        sp.m_object ≠ none → sp.m_use_count ≠ none) ∧
    (∀ i j sp sp' o, nth (run t).ptrs i = some (some sp) →
        nth (run t).ptrs j = some (some sp') →
        sp.m_object = some o → sp'.m_object = some o →
        sp.m_use_count = sp'.m_use_count) :=
  ⟨(binv_run t).objCnt, (binv_run t).share⟩

/-- Witness for C3 on a two-alias world. -/
theorem claim_C3_witness :
    (shared_ptr.mk (some 0) (some 0)).m_use_count ≠ none ∧
    (shared_ptr.mk (some 0) (some 0)).m_use_count =
      (shared_ptr.mk (some 0) (some 0)).m_use_count :=
  ⟨(claim_C3 [SOp.constructFresh, SOp.copyConstruct 0]).1 0
      (shared_ptr.mk (some 0) (some 0)) (by decide) (by decide),
   (claim_C3 [SOp.constructFresh, SOp.copyConstruct 0]).2 0 1
      (shared_ptr.mk (some 0) (some 0)) (shared_ptr.mk (some 0) (some 0)) 0
      (by decide) (by decide) (by decide) (by decide)⟩

/-- C1, as amended.  For every sequence of the listed operations that
contains no self-assignment: every unfreed count cell reads exactly the
number of live instances referencing it (the aliases of its object unit);
no count cell and no object is ever released twice; no object or cell
referenced by a live instance has been released (never released before the
last reference is gone); and releasing the last reference (count cell at `1`)
frees the cell and the managed object together, at that zero transition. -/
theorem claim_C1 (t : List SOp) (hcl : Clean t) :
    (∀ c, c < (run t).nextCnt → c ∉ (run t).cntFreed →
        cntLookup (run t).cntStore c = countRefs (run t).ptrs c) ∧
    (∀ c, (run t).cntFreed.count c ≤ 1) ∧
    (∀ o, (run t).objFreed.count o ≤ 1) ∧
    (∀ i sp c, nth (run t).ptrs i = some (some sp) →
        sp.m_use_count = some c → c ∉ (run t).cntFreed) ∧
    (∀ i sp o, nth (run t).ptrs i = some (some sp) →
        sp.m_object = some o → o ∉ (run t).objFreed) ∧
    (∀ (w : SState) (i : Nat) (sp : shared_ptr) (ci : Nat),
        getLive w i = some sp → sp.m_use_count = some ci →
        cntLookup w.cntStore ci = 1 →
        (step w (SOp.destroy i)).cntFreed = ci :: w.cntFreed ∧
        (step w (SOp.destroy i)).objFreed =
          (match sp.m_object with
           | some o => o :: w.objFreed
           | none => w.objFreed)) := by
  have h := inv_run t hcl
  refine ⟨fun c _ hf => h.valEq c hf, h.cntFreedOnce, h.objFreedOnce,
    h.liveCntNotFreed, h.liveObjNotFreed, ?_⟩
  intro w i sp ci hg hc h1
  constructor
  · rw [destroy_cntFreed w i sp hg, decrement_cntFreed]
    simp [hc, h1]
  · rw [destroy_objFreed w i sp hg, decrement_objFreed]
    simp [hc, h1]

/-- Witness for C1 on the clean trace with two aliases of one object, and on
destroying a sole owner. -/
theorem claim_C1_witness :
    cntLookup (run [SOp.constructFresh, SOp.copyConstruct 0]).cntStore 0 =
      countRefs (run [SOp.constructFresh, SOp.copyConstruct 0]).ptrs 0 ∧
    (run [SOp.constructFresh, SOp.copyConstruct 0]).cntFreed.count 0 ≤ 1 ∧
    (run [SOp.constructFresh, SOp.copyConstruct 0]).objFreed.count 0 ≤ 1 ∧
    (0 : Nat) ∉ (run [SOp.constructFresh, SOp.copyConstruct 0]).cntFreed ∧
    (0 : Nat) ∉ (run [SOp.constructFresh, SOp.copyConstruct 0]).objFreed ∧
    ((step (run [SOp.constructFresh]) (SOp.destroy 0)).cntFreed =
        0 :: (run [SOp.constructFresh]).cntFreed ∧
      (step (run [SOp.constructFresh]) (SOp.destroy 0)).objFreed =
        (match (shared_ptr.mk (some 0) (some 0)).m_object with
         | some o => o :: (run [SOp.constructFresh]).objFreed
         | none => (run [SOp.constructFresh]).objFreed)) := by
  have h := claim_C1 [SOp.constructFresh, SOp.copyConstruct 0] (by decide)
  exact ⟨h.1 0 (by decide) (by decide), h.2.1 0, h.2.2.1 0,
    h.2.2.2.1 0 (shared_ptr.mk (some 0) (some 0)) 0 (by decide) (by decide),
    h.2.2.2.2.1 0 (shared_ptr.mk (some 0) (some 0)) 0 (by decide) (by decide),
    h.2.2.2.2.2 (run [SOp.constructFresh]) 0 (shared_ptr.mk (some 0) (some 0)) 0
      (by decide) (by decide) (by decide)⟩

/-- C4, as amended.  On traces without self-assignment the check-then-free
release sequence runs at most once per count cell; the source of a move
(construction or assignment) is empty immediately after the transfer; and
the destination of a move assignment does not become empty — once its prior
reference has been released it holds the reference transferred from the
source (the original claim's "destination becomes empty" fails, see the
counterexample). -/
theorem claim_C4 :
    (∀ t, Clean t → ∀ c, (run t).cntFreed.count c ≤ 1) ∧
    (∀ (w : SState) (i : Nat) (sp : shared_ptr), getLive w i = some sp →
        getLive (step w (SOp.moveConstruct i)) i = some ⟨none, none⟩) ∧
    (∀ (w : SState) (i j : Nat) (spi spj : shared_ptr), i ≠ j →
        getLive w i = some spi → getLive w j = some spj →
        getLive (step w (SOp.moveAssign i j)) j = some ⟨none, none⟩ ∧
        getLive (step w (SOp.moveAssign i j)) i = some spj) := by
  refine ⟨?_, ?_, ?_⟩
  · intro t hcl c
    exact (inv_run t hcl).cntFreedOnce c
  · intro w i sp h
    have hn := getLive_eq.mp h
    refine getLive_eq.mpr ?_
    rw [moveConstruct_state w i sp h]
    show nth (setN w.ptrs i (some ⟨none, none⟩) ++ [some sp]) i = _
    exact nth_append_left _ _ _ _ (nth_setN_self _ _ _ _ hn)
  · intro w i j spi spj hij hi hj
    have hni := getLive_eq.mp hi
    have hnj := getLive_eq.mp hj
    have hLj : nth (setN w.ptrs i (some spj)) j = some (some spj) := by
      rw [nth_setN_ne _ _ _ _ hij]
      exact hnj
    constructor
    · refine getLive_eq.mpr ?_
      rw [moveAssign_ptrs w i j spi spj hi hj]
      exact nth_setN_self _ _ _ _ hLj
    · refine getLive_eq.mpr ?_
      rw [moveAssign_ptrs w i j spi spj hi hj]
      rw [nth_setN_ne _ _ _ _ (Ne.symm hij)]
      exact nth_setN_self _ _ _ _ hni

/-- Witness for C4: a full construct-destroy cycle frees its cell once, and
a concrete move empties its source while the move-assignment destination
receives the transferred reference. -/
theorem claim_C4_witness :
    (run [SOp.constructFresh, SOp.destroy 0]).cntFreed.count 0 ≤ 1 ∧
    getLive (step (run [SOp.constructFresh]) (SOp.moveConstruct 0)) 0 =
      some ⟨none, none⟩ ∧
    getLive (step (run [SOp.constructFresh, SOp.constructFresh])
      (SOp.moveAssign 0 1)) 1 = some ⟨none, none⟩ ∧
    getLive (step (run [SOp.constructFresh, SOp.constructFresh])
      (SOp.moveAssign 0 1)) 0 = some (shared_ptr.mk (some 1) (some 1)) :=
  ⟨claim_C4.1 [SOp.constructFresh, SOp.destroy 0] (by decide) 0,
   claim_C4.2.1 (run [SOp.constructFresh]) 0 (shared_ptr.mk (some 0) (some 0))
     (by decide),
   (claim_C4.2.2 (run [SOp.constructFresh, SOp.constructFresh]) 0 1
     (shared_ptr.mk (some 0) (some 0)) (shared_ptr.mk (some 1) (some 1))
     (by decide) (by decide) (by decide)).1,
   (claim_C4.2.2 (run [SOp.constructFresh, SOp.constructFresh]) 0 1
     (shared_ptr.mk (some 0) (some 0)) (shared_ptr.mk (some 1) (some 1))
     (by decide) (by decide) (by decide)).2⟩

/-- C7.  `unique` reads `true` exactly when `use_count` reads `1` (for an
instance with no count cell, `use_count` is `0`).  Scenario: an instance
constructed from a raw pointer is unique (shown by `constructFresh`, whose
cell is initialised to `1`, and in general for any sole owner, that is, any
instance whose cell reads `1`); after copy-constructing from it both aliases
report non-unique; after the copy is destroyed the remaining owner is unique
again. -/
theorem claim_C7 (w : SState) (i c : Nat) (sp : shared_ptr)
    (h : getLive w i = some sp) (hc : sp.m_use_count = some c)
    (h1 : cntLookup w.cntStore c = 1) :
    (∀ (sq : shared_ptr) (mem : List (Nat × Nat)),
        sq.unique mem = true ↔ sq.use_count mem = 1) ∧
    uniqueAt (step w SOp.constructFresh) w.ptrs.length = true ∧
    uniqueAt w i = true ∧
    uniqueAt (step w (SOp.copyConstruct i)) i = false ∧
    uniqueAt (step w (SOp.copyConstruct i)) w.ptrs.length = false ∧
    uniqueAt (step (step w (SOp.copyConstruct i))
      (SOp.destroy w.ptrs.length)) i = true := by
  have hn : nth w.ptrs i = some (some sp) := getLive_eq.mp h
  have hilen : i < w.ptrs.length := nth_lt_length _ _ _ hn
  have hfresh : getLive (step w SOp.constructFresh) w.ptrs.length =
      some ⟨some w.nextObj, some w.nextCnt⟩ := by
    simp [step, getLive, nth_append_self]
  have hw2 : step w (SOp.copyConstruct i) =
      increment_use_count sp { w with ptrs := w.ptrs ++ [some sp] } := by
    simp [step, h]
  have hp2 : (step w (SOp.copyConstruct i)).ptrs = w.ptrs ++ [some sp] := by
    rw [hw2, increment_ptrs]
  have hs2 : (step w (SOp.copyConstruct i)).cntStore = cntSet w.cntStore c 2 := by
    rw [hw2, increment_cntStore]
    simp [hc, h1]
  have hgi2 : getLive (step w (SOp.copyConstruct i)) i = some sp :=
    getLive_eq.mpr (by rw [hp2]; exact nth_append_left _ _ _ _ hn)
  have hglen2 : getLive (step w (SOp.copyConstruct i)) w.ptrs.length = some sp :=
    getLive_eq.mpr (by rw [hp2]; exact nth_append_self _ _)
  have hs3 : (step (step w (SOp.copyConstruct i))
      (SOp.destroy w.ptrs.length)).cntStore = cntSet (cntSet w.cntStore c 2) c 1 := by
    rw [destroy_cntStore _ _ _ hglen2, decrement_cntStore]
    simp [hc, hs2, cntLookup_cntSet_self]
  have hgi3 : getLive (step (step w (SOp.copyConstruct i))
      (SOp.destroy w.ptrs.length)) i = some sp := by
    refine getLive_eq.mpr ?_
    rw [destroy_ptrs _ _ _ hglen2, hp2]
    rw [nth_setN_ne _ _ _ _ (by omega : w.ptrs.length ≠ i)]
    exact nth_append_left _ _ _ _ hn
  refine ⟨?_, ?_, ?_, ?_, ?_, ?_⟩
  · intro sq mem
    cases hq : sq.m_use_count with
    | none => simp [shared_ptr.unique, shared_ptr.use_count, hq]
    | some d => simp [shared_ptr.unique, shared_ptr.use_count, hq]
  · rw [uniqueAt, hfresh]
    simp [shared_ptr.unique, step, cntLookup_cntSet_self]
  · rw [uniqueAt, h]
    simp [shared_ptr.unique, hc, h1]
  · rw [uniqueAt, hgi2]
    simp [shared_ptr.unique, hc, hs2, cntLookup_cntSet_self]
  · rw [uniqueAt, hglen2]
    simp [shared_ptr.unique, hc, hs2, cntLookup_cntSet_self]
  · rw [uniqueAt, hgi3]
    simp [shared_ptr.unique, hc, hs3, cntLookup_cntSet_self]

/-- Witness for C7 on the sole owner freshly constructed from a raw
pointer. -/
theorem claim_C7_witness :
    (∀ (sq : shared_ptr) (mem : List (Nat × Nat)),
        sq.unique mem = true ↔ sq.use_count mem = 1) ∧
    uniqueAt (step (run [SOp.constructFresh]) SOp.constructFresh)
      (run [SOp.constructFresh]).ptrs.length = true ∧
    uniqueAt (run [SOp.constructFresh]) 0 = true ∧
    uniqueAt (step (run [SOp.constructFresh]) (SOp.copyConstruct 0)) 0 = false ∧
    uniqueAt (step (run [SOp.constructFresh]) (SOp.copyConstruct 0))
      (run [SOp.constructFresh]).ptrs.length = false ∧
    uniqueAt (step (step (run [SOp.constructFresh]) (SOp.copyConstruct 0))
      (SOp.destroy (run [SOp.constructFresh]).ptrs.length)) 0 = true :=
  claim_C7 (run [SOp.constructFresh]) 0 0 (shared_ptr.mk (some 0) (some 0))
    (by decide) (by decide) (by decide)

/-- C10.  Copying from an empty `shared_ptr` (both members null) is
well-defined and yields an empty destination: copy construction changes no
count cell at all, copy assignment increments nothing (every cell value can
only decrease, by the destination's release of its prior reference), and the
destination reports `use_count = 0` and converts to `false`. -/
theorem claim_C10 (w : SState) (i j : Nat) (spi : shared_ptr)
    (hi : getLive w i = some spi) (hj : getLive w j = some ⟨none, none⟩) :
    getLive (step w (SOp.copyConstruct j)) w.ptrs.length = some ⟨none, none⟩ ∧
    (step w (SOp.copyConstruct j)).cntStore = w.cntStore ∧
    useCountAt (step w (SOp.copyConstruct j)) w.ptrs.length = 0 ∧
    boolAt (step w (SOp.copyConstruct j)) w.ptrs.length = false ∧
    getLive (step w (SOp.copyAssign i j)) i = some ⟨none, none⟩ ∧
    useCountAt (step w (SOp.copyAssign i j)) i = 0 ∧
    boolAt (step w (SOp.copyAssign i j)) i = false ∧
    (∀ c, cntLookup (step w (SOp.copyAssign i j)).cntStore c ≤
      cntLookup w.cntStore c) := by
  have hni : nth w.ptrs i = some (some spi) := getLive_eq.mp hi
  have hw2 : step w (SOp.copyConstruct j) =
      { w with ptrs := w.ptrs ++ [some ⟨none, none⟩] } := by
    simp [step, hj, increment_use_count]
  have hg2 : getLive (step w (SOp.copyConstruct j)) w.ptrs.length =
      some ⟨none, none⟩ :=
    getLive_eq.mpr (by rw [hw2]; exact nth_append_self _ _)
  have hw3 : step w (SOp.copyAssign i j) =
      { decrement_use_count spi w with
        ptrs := setN w.ptrs i (some ⟨none, none⟩) } := by
    simp [step, hi, hj, increment_use_count, decrement_ptrs]
  have hg3 : getLive (step w (SOp.copyAssign i j)) i = some ⟨none, none⟩ := by
    refine getLive_eq.mpr ?_
    rw [hw3]
    exact nth_setN_self _ _ _ _ hni
  refine ⟨hg2, by rw [hw2], ?_, ?_, hg3, ?_, ?_, ?_⟩
  · rw [useCountAt, hg2]; simp [shared_ptr.use_count]
  · rw [boolAt, hg2]; simp [shared_ptr.boolConv]
  · rw [useCountAt, hg3]; simp [shared_ptr.use_count]
  · rw [boolAt, hg3]; simp [shared_ptr.boolConv]
  · intro c
    have hsc : (step w (SOp.copyAssign i j)).cntStore =
        (decrement_use_count spi w).cntStore := by rw [hw3]
    rw [hsc, decrement_cntStore]
    cases hci : spi.m_use_count with
    | none => simp
    | some ci =>
      simp only
      by_cases h : ci = c
      · subst h
        rw [cntLookup_cntSet_self]
        omega
      · rw [cntLookup_cntSet_ne _ _ _ _ h]

/-- Witness for C10: copying from an empty owner next to a sole owner. -/
theorem claim_C10_witness :
    getLive (step (run [SOp.constructFresh, SOp.construct]) (SOp.copyConstruct 1))
      (run [SOp.constructFresh, SOp.construct]).ptrs.length = some ⟨none, none⟩ ∧
    (step (run [SOp.constructFresh, SOp.construct]) (SOp.copyConstruct 1)).cntStore =
      (run [SOp.constructFresh, SOp.construct]).cntStore ∧
    useCountAt (step (run [SOp.constructFresh, SOp.construct]) (SOp.copyConstruct 1))
      (run [SOp.constructFresh, SOp.construct]).ptrs.length = 0 ∧
    boolAt (step (run [SOp.constructFresh, SOp.construct]) (SOp.copyConstruct 1))
      (run [SOp.constructFresh, SOp.construct]).ptrs.length = false ∧
    getLive (step (run [SOp.constructFresh, SOp.construct]) (SOp.copyAssign 0 1)) 0 =
      some ⟨none, none⟩ ∧
    useCountAt (step (run [SOp.constructFresh, SOp.construct]) (SOp.copyAssign 0 1)) 0 = 0 ∧
    boolAt (step (run [SOp.constructFresh, SOp.construct]) (SOp.copyAssign 0 1)) 0 = false ∧
    (∀ c, cntLookup (step (run [SOp.constructFresh, SOp.construct])
      (SOp.copyAssign 0 1)).cntStore c ≤
      cntLookup (run [SOp.constructFresh, SOp.construct]).cntStore c) :=
  claim_C10 (run [SOp.constructFresh, SOp.construct]) 0 1
    (shared_ptr.mk (some 0) (some 0)) (by decide) (by decide)

/-- C5, as amended.  Moving from a live owner leaves the source empty
(boolean conversion `false`).  For `shared_ptr`, move construction changes no
count cell, and move assignment leaves the source's count cell unchanged
whenever the destination's prior count cell differs from it (when destination
and source already share the cell, the destination's release decrements it,
which is the counterexample).  The same source-emptying holds for
`unique_ptr` moves. -/
theorem claim_C5 :
    (∀ (w : SState) (i : Nat) (sp : shared_ptr), getLive w i = some sp →
        boolAt (step w (SOp.moveConstruct i)) i = false ∧
        getLive (step w (SOp.moveConstruct i)) i = some ⟨none, none⟩ ∧
        getLive (step w (SOp.moveConstruct i)) w.ptrs.length = some sp ∧
        (step w (SOp.moveConstruct i)).cntStore = w.cntStore) ∧
    (∀ (w : SState) (i j : Nat) (spi spj : shared_ptr),
        getLive w i = some spi → getLive w j = some spj →
        spi.m_use_count ≠ spj.m_use_count →
        boolAt (step w (SOp.moveAssign i j)) j = false ∧
        getLive (step w (SOp.moveAssign i j)) j = some ⟨none, none⟩ ∧
        getLive (step w (SOp.moveAssign i j)) i = some spj ∧
        (∀ c, spj.m_use_count = some c →
          cntLookup (step w (SOp.moveAssign i j)).cntStore c =
            cntLookup w.cntStore c)) ∧
    (∀ (w : UState) (i : Nat) (up : unique_ptr), ugetLive w i = some up →
        uboolAt (ustep w (UOp.moveConstruct i)) i = false ∧
        ugetLive (ustep w (UOp.moveConstruct i)) w.ptrs.length = some up ∧
        (ustep w (UOp.moveConstruct i)).objFreed = w.objFreed) ∧
    (∀ (w : UState) (i j : Nat) (upi upj : unique_ptr), i ≠ j →
        ugetLive w i = some upi → ugetLive w j = some upj →
        uboolAt (ustep w (UOp.moveAssign i j)) j = false ∧
        ugetLive (ustep w (UOp.moveAssign i j)) i = some upj) := by
  refine ⟨?_, ?_, ?_, ?_⟩
  · intro w i sp h
    have hn : nth w.ptrs i = some (some sp) := getLive_eq.mp h
    have hw : step w (SOp.moveConstruct i) =
        { w with ptrs := setN w.ptrs i (some ⟨none, none⟩) ++ [some sp] } := by
      simp [step, h]
    have hgi : getLive (step w (SOp.moveConstruct i)) i = some ⟨none, none⟩ := by
      refine getLive_eq.mpr ?_
      rw [hw]
      exact nth_append_left _ _ _ _ (nth_setN_self _ _ _ _ hn)
    have hglen : getLive (step w (SOp.moveConstruct i)) w.ptrs.length = some sp := by
      refine getLive_eq.mpr ?_
      rw [hw]
      have := nth_append_self (setN w.ptrs i (some ⟨none, none⟩)) (some sp)
      rwa [length_setN] at this
    refine ⟨?_, hgi, hglen, by rw [hw]⟩
    rw [boolAt, hgi]; simp [shared_ptr.boolConv]
  · intro w i j spi spj hi hj hcc
    have hij : i ≠ j := by
      intro h
      subst h
      rw [hi] at hj
      exact hcc (by rw [Option.some_inj.mp hj])
    have hni : nth w.ptrs i = some (some spi) := getLive_eq.mp hi
    have hnj : nth w.ptrs j = some (some spj) := getLive_eq.mp hj
    have hp : (step w (SOp.moveAssign i j)).ptrs =
        setN (setN w.ptrs i (some spj)) j (some ⟨none, none⟩) :=
      moveAssign_ptrs w i j spi spj hi hj
    have hLj : nth (setN w.ptrs i (some spj)) j = some (some spj) := by
      rw [nth_setN_ne _ _ _ _ hij]; exact hnj
    have hgj : getLive (step w (SOp.moveAssign i j)) j = some ⟨none, none⟩ := by
      refine getLive_eq.mpr ?_
      rw [hp]
      exact nth_setN_self _ _ _ _ hLj
    have hgi : getLive (step w (SOp.moveAssign i j)) i = some spj := by
      refine getLive_eq.mpr ?_
      rw [hp]
      rw [nth_setN_ne _ _ _ _ (Ne.symm hij)]
      exact nth_setN_self _ _ _ _ hni
    refine ⟨?_, hgj, hgi, ?_⟩
    · rw [boolAt, hgj]; simp [shared_ptr.boolConv]
    · intro c hcj
      rw [moveAssign_cntStore _ _ _ _ _ hi hj, decrement_cntStore]
      cases hci : spi.m_use_count with
      | none => simp
      | some ci =>
        have : ci ≠ c := by
          intro h
          subst h
          exact hcc (by rw [hci, hcj])
        simp only
        rw [cntLookup_cntSet_ne _ _ _ _ this]
  · intro w i up h
    have hn : nth w.ptrs i = some (some up) := ugetLive_eq.mp h
    have hw : ustep w (UOp.moveConstruct i) =
        { w with ptrs := setN w.ptrs i (some ⟨none⟩) ++ [some up] } := by
      simp [ustep, h]
    have hgi : ugetLive (ustep w (UOp.moveConstruct i)) i = some ⟨none⟩ := by
      refine ugetLive_eq.mpr ?_
      rw [hw]
      exact nth_append_left _ _ _ _ (nth_setN_self _ _ _ _ hn)
    have hglen : ugetLive (ustep w (UOp.moveConstruct i)) w.ptrs.length = some up := by
      refine ugetLive_eq.mpr ?_
      rw [hw]
      have := nth_append_self (setN w.ptrs i (some (unique_ptr.mk none))) (some up)
      rwa [length_setN] at this
    refine ⟨?_, hglen, by rw [hw]⟩
    rw [uboolAt, hgi]; simp [unique_ptr.boolConv]
  · intro w i j upi upj hij hi hj
    have hni : nth w.ptrs i = some (some upi) := ugetLive_eq.mp hi
    have hnj : nth w.ptrs j = some (some upj) := ugetLive_eq.mp hj
    have hp : (ustep w (UOp.moveAssign i j)).ptrs =
        setN (setN w.ptrs i (some upj)) j (some ⟨none⟩) :=
      umoveAssign_ptrs w i j upi upj hi hj
    have hLj : nth (setN w.ptrs i (some upj)) j = some (some upj) := by
      rw [nth_setN_ne _ _ _ _ hij]; exact hnj
    have hgj : ugetLive (ustep w (UOp.moveAssign i j)) j = some ⟨none⟩ := by
      refine ugetLive_eq.mpr ?_
      rw [hp]
      exact nth_setN_self _ _ _ _ hLj
    have hgi : ugetLive (ustep w (UOp.moveAssign i j)) i = some upj := by
      refine ugetLive_eq.mpr ?_
      rw [hp]
      rw [nth_setN_ne _ _ _ _ (Ne.symm hij)]
      exact nth_setN_self _ _ _ _ hni
    exact ⟨by rw [uboolAt, hgj]; simp [unique_ptr.boolConv], hgi⟩

/-- Witness for C5 at concrete worlds: a sole `shared_ptr` owner moved into a
fresh slot, a move assignment between owners of different objects, and the
`unique_ptr` counterparts. -/
theorem claim_C5_witness :
    (boolAt (step (run [SOp.constructFresh]) (SOp.moveConstruct 0)) 0 = false ∧
     getLive (step (run [SOp.constructFresh]) (SOp.moveConstruct 0)) 0 =
       some ⟨none, none⟩ ∧
     getLive (step (run [SOp.constructFresh]) (SOp.moveConstruct 0))
       (run [SOp.constructFresh]).ptrs.length = some (shared_ptr.mk (some 0) (some 0)) ∧
     (step (run [SOp.constructFresh]) (SOp.moveConstruct 0)).cntStore =
       (run [SOp.constructFresh]).cntStore) ∧
    (boolAt (step (run [SOp.constructFresh, SOp.constructFresh])
        (SOp.moveAssign 0 1)) 1 = false ∧
     getLive (step (run [SOp.constructFresh, SOp.constructFresh])
        (SOp.moveAssign 0 1)) 1 = some ⟨none, none⟩ ∧
     getLive (step (run [SOp.constructFresh, SOp.constructFresh])
        (SOp.moveAssign 0 1)) 0 = some (shared_ptr.mk (some 1) (some 1)) ∧
     (∀ c, (shared_ptr.mk (some 1) (some 1)).m_use_count = some c →
        cntLookup (step (run [SOp.constructFresh, SOp.constructFresh])
          (SOp.moveAssign 0 1)).cntStore c =
          cntLookup (run [SOp.constructFresh, SOp.constructFresh]).cntStore c)) ∧
    (uboolAt (ustep (urun [UOp.constructFresh]) (UOp.moveConstruct 0)) 0 = false ∧
     ugetLive (ustep (urun [UOp.constructFresh]) (UOp.moveConstruct 0))
       (urun [UOp.constructFresh]).ptrs.length = some (unique_ptr.mk (some 0)) ∧
     (ustep (urun [UOp.constructFresh]) (UOp.moveConstruct 0)).objFreed =
       (urun [UOp.constructFresh]).objFreed) ∧
    (uboolAt (ustep (urun [UOp.constructFresh, UOp.constructFresh])
        (UOp.moveAssign 0 1)) 1 = false ∧
     ugetLive (ustep (urun [UOp.constructFresh, UOp.constructFresh])
        (UOp.moveAssign 0 1)) 0 = some (unique_ptr.mk (some 1))) :=
  ⟨claim_C5.1 (run [SOp.constructFresh]) 0 (shared_ptr.mk (some 0) (some 0))
      (by decide),
   claim_C5.2.1 (run [SOp.constructFresh, SOp.constructFresh]) 0 1
      (shared_ptr.mk (some 0) (some 0)) (shared_ptr.mk (some 1) (some 1))
      (by decide) (by decide) (by decide),
   claim_C5.2.2.1 (urun [UOp.constructFresh]) 0 (unique_ptr.mk (some 0))
      (by decide),
   claim_C5.2.2.2 (urun [UOp.constructFresh, UOp.constructFresh]) 0 1
      (unique_ptr.mk (some 0)) (unique_ptr.mk (some 1))
      (by decide) (by decide) (by decide)⟩

end SmartPtr
